import Mathlib

/-!
Verification development for the Cocoa inspection server
(routes/inspection.py): round lifecycle, image quota, diagnosis
aggregation, recommendation upsert and status patching.

The definitions below are shallow embeddings of the Python source.
Database tables become lists of records; the MySQL connection has
autocommit disabled, so an early return without commit rolls the
transaction back; we model committed state explicitly and record the
number of statements that were executed before an abort.
-/

namespace Cocoa

/-- Source constant STATUS_OPEN: the status string of an open round. -/
def STATUS_OPEN : String := "pending"

/-- Source constant STATUS_DONE: the status string of a closed round. -/
def STATUS_DONE : String := "completed"

/-- Source constant ALLOWED_EXTS. -/
def ALLOWED_EXTS : List String := ["jpg", "jpeg", "png", "bmp", "webp"]

/-- Source constant MAX_FILE_BYTES = 20 * 1024 * 1024. -/
def MAX_FILE_BYTES : Nat := 20 * 1024 * 1024

/-- Source constant MAX_IMAGES_PER_ROUND = 5. -/
def MAX_IMAGES_PER_ROUND : Nat := 5

/-- A row of the field table (the part start_round reads). -/
structure FieldRow where
  field_id : Nat
  user_id : Nat
deriving DecidableEq

/-- A row of the zone_inspection table. -/
structure ZoneInspection where
  inspection_id : Nat
  field_id : Nat
  zone_id : Nat
  round_no : Nat
  status : String
  notes : Option String
deriving DecidableEq

/-- The zone_inspection table plus the AUTO_INCREMENT counter. -/
structure RoundState where
  rounds : List ZoneInspection
  nextId : Nat
deriving DecidableEq

/-- The element of a list maximising a Nat key; SQL ORDER BY key DESC
LIMIT 1 over a result set. On equal keys the earlier element wins. -/
def argmaxKey {α : Type} (key : α → Nat) : List α → Option α
  | [] => none
  | r :: rs =>
    match argmaxKey key rs with
    | none => some r
    | some m => if key m > key r then some m else some r

/-- The rows of zone_inspection for a (field, zone) pair whose status is
STATUS_OPEN (the WHERE clause of the open-round query in start_round). -/
def openRounds (l : List ZoneInspection) (f z : Nat) : List ZoneInspection :=
  l.filter (fun r => r.field_id == f && r.zone_id == z && r.status == STATUS_OPEN)

/-- The open-round query of start_round: ORDER BY inspection_id DESC LIMIT 1. -/
def latestOpen (l : List ZoneInspection) (f z : Nat) : Option ZoneInspection :=
  argmaxKey (fun r => r.inspection_id) (openRounds l f z)

/-- SELECT MAX(round_no) over the rounds of a (field, zone) pair, with
NULL coalesced to 0 (the source writes: maxr or 0). -/
def maxRound (l : List ZoneInspection) (f z : Nat) : Nat :=
  ((l.filter (fun r => r.field_id == f && r.zone_id == z)).map
    (fun r => r.round_no)).foldl max 0

/-- The UPDATE of start_round that closes a round: sets status to
STATUS_DONE on rows whose inspection_id matches and whose status is
STATUS_OPEN. -/
def closeRound (l : List ZoneInspection) (iid : Nat) : List ZoneInspection :=
  l.map (fun r =>
    if r.inspection_id == iid && r.status == STATUS_OPEN then
      { r with status := STATUS_DONE }
    else r)

/-- Outcome of the start endpoint. -/
inductive StartOutcome
  | missingParams
  | fieldNotFound
  | forbidden
  | dbError
  | ok (idempotent : Bool) (inspection_id : Nat) (round_no : Nat)
deriving DecidableEq

/-- Shallow embedding of start_round (routes/inspection.py).  failClose
and failInsert inject a store error at the corresponding statement; the
source commits right after the close UPDATE, so a failing INSERT rolls
back only to the state with the old round already closed. -/
def start_round (fields : List FieldRow) (st : RoundState)
    (uid field_id zone_id : Nat) (notes : Option String)
    (new_round : Bool) (failClose failInsert : Bool) :
    StartOutcome × RoundState :=
  if field_id == 0 || zone_id == 0 then (.missingParams, st)
  else
    match fields.find? (fun fl => fl.field_id == field_id) with
    | none => (.fieldNotFound, st)
    | some owner =>
      if owner.user_id != uid then (.forbidden, st)
      else
        match latestOpen st.rounds field_id zone_id with
        | some e =>
          if !new_round then (.ok true e.inspection_id e.round_no, st)
          else if failClose then (.dbError, st)
          else
            let st1 : RoundState := { st with rounds := closeRound st.rounds e.inspection_id }
            if failInsert then (.dbError, st1)
            else
              let next := maxRound st1.rounds field_id zone_id + 1
              let r : ZoneInspection :=
                ⟨st1.nextId, field_id, zone_id, next, STATUS_OPEN, notes⟩
              (.ok false st1.nextId next,
               { rounds := st1.rounds ++ [r], nextId := st1.nextId + 1 })
        | none =>
          if failInsert then (.dbError, st)
          else
            let next := maxRound st.rounds field_id zone_id + 1
            let r : ZoneInspection :=
              ⟨st.nextId, field_id, zone_id, next, STATUS_OPEN, notes⟩
            (.ok false st.nextId next,
             { rounds := st.rounds ++ [r], nextId := st.nextId + 1 })

/-- The invariant of claim C1: at most one open round per (field, zone). -/
def AtMostOneOpen (l : List ZoneInspection) : Prop :=
  ∀ f z, (openRounds l f z).length ≤ 1

example :
    (start_round [⟨1, 7⟩] ⟨[], 10⟩ 7 1 2 none false false false).1
      = .ok false 10 1 := by decide

example :
    (start_round [⟨1, 7⟩]
      ⟨[⟨10, 1, 2, 1, "pending", none⟩], 11⟩ 7 1 2 none false false false).1
      = .ok true 10 1 := by decide

example :
    (start_round [⟨1, 7⟩]
      ⟨[⟨10, 1, 2, 1, "pending", none⟩], 11⟩ 7 1 2 none true false false)
      = (.ok false 11 2,
         ⟨[⟨10, 1, 2, 1, "completed", none⟩, ⟨11, 1, 2, 2, "pending", none⟩], 12⟩) := by
  decide

theorem argmaxKey_mem {α : Type} (key : α → Nat) :
    ∀ {l : List α} {x : α}, argmaxKey key l = some x → x ∈ l := by
  intro l
  induction l with
  | nil => intro x h; simp [argmaxKey] at h
  | cons r rs ih =>
    intro x h
    simp only [argmaxKey] at h
    cases hrec : argmaxKey key rs with
    | none =>
      simp only [hrec] at h
      injection h with h2
      exact h2 ▸ List.mem_cons_self r rs
    | some m =>
      simp only [hrec] at h
      by_cases hk : key m > key r
      · rw [if_pos hk] at h
        injection h with h2
        exact h2 ▸ List.mem_cons_of_mem r (ih hrec)
      · rw [if_neg hk] at h
        injection h with h2
        exact h2 ▸ List.mem_cons_self r rs

theorem argmaxKey_eq_none {α : Type} (key : α → Nat) {l : List α}
    (h : argmaxKey key l = none) : l = [] := by
  cases l with
  | nil => rfl
  | cons r rs =>
    exfalso
    simp only [argmaxKey] at h
    cases hrec : argmaxKey key rs with
    | none => rw [hrec] at h; exact Option.noConfusion h
    | some m =>
      rw [hrec] at h
      by_cases hk : key m > key r <;> simp [hk] at h

theorem eq_singleton_of_length_le_one {α : Type} {l : List α} {x : α}
    (hlen : l.length ≤ 1) (hx : x ∈ l) : l = [x] := by
  cases l with
  | nil => simp at hx
  | cons a t =>
    cases t with
    | nil =>
      simp only [List.mem_singleton] at hx
      simp [hx]
    | cons b t2 => simp at hlen

theorem openRounds_append (l : List ZoneInspection) (r : ZoneInspection) (f z : Nat) :
    openRounds (l ++ [r]) f z
      = openRounds l f z ++
        (if (r.field_id == f && r.zone_id == z && r.status == STATUS_OPEN) = true
         then [r] else []) := by
  by_cases h : (r.field_id == f && r.zone_id == z && r.status == STATUS_OPEN) = true
  · simp [openRounds, List.filter_append, h]
  · simp [openRounds, List.filter_append, h]

theorem closeRound_pred (iid f z : Nat) (a : ZoneInspection) :
    ((if a.inspection_id == iid && a.status == STATUS_OPEN
        then { a with status := STATUS_DONE } else a).field_id == f
      && (if a.inspection_id == iid && a.status == STATUS_OPEN
        then { a with status := STATUS_DONE } else a).zone_id == z
      && (if a.inspection_id == iid && a.status == STATUS_OPEN
        then { a with status := STATUS_DONE } else a).status == STATUS_OPEN)
    = (!(a.inspection_id == iid)
       && (a.field_id == f && a.zone_id == z && a.status == STATUS_OPEN)) := by
  have hdone : (STATUS_DONE == STATUS_OPEN) = false := by decide
  by_cases hc : (a.inspection_id == iid && a.status == STATUS_OPEN) = true
  · rw [if_pos hc]
    have hid : (a.inspection_id == iid) = true := by
      simpa using (Bool.and_eq_true _ _ |>.mp hc).1
    simp [hid, hdone]
  · rw [if_neg hc]
    by_cases hidp : (a.inspection_id == iid) = true
    · have hstat : (a.status == STATUS_OPEN) = false := by
        rcases Decidable.em ((a.status == STATUS_OPEN) = true) with hs | hs
        · exact absurd (by simp [hidp, hs]) hc
        · simpa using hs
      simp [hidp, hstat]
    · have hidf : (a.inspection_id == iid) = false := by simpa using hidp
      simp [hidf]

theorem openRounds_closeRound (l : List ZoneInspection) (iid f z : Nat) :
    openRounds (closeRound l iid) f z
      = (openRounds l f z).filter (fun r => !(r.inspection_id == iid)) := by
  unfold openRounds closeRound
  rw [List.filter_map, List.filter_filter]
  have hcongr : List.filter
      ((fun r : ZoneInspection =>
          r.field_id == f && r.zone_id == z && r.status == STATUS_OPEN) ∘
        fun r : ZoneInspection =>
          if r.inspection_id == iid && r.status == STATUS_OPEN
          then { r with status := STATUS_DONE } else r) l
      = List.filter (fun a : ZoneInspection =>
          !(a.inspection_id == iid)
          && (a.field_id == f && a.zone_id == z && a.status == STATUS_OPEN)) l :=
    List.filter_congr (fun a _ => closeRound_pred iid f z a)
  rw [hcongr]
  refine Eq.trans (List.map_congr_left ?_) (List.map_id _)
  intro a ha
  rw [List.mem_filter] at ha
  have h2 := ha.2
  simp only [Bool.and_eq_true, Bool.not_eq_true'] at h2
  simp [h2.1]

theorem closeRound_pair_map (l : List ZoneInspection) (iid f z : Nat) :
    ((closeRound l iid).filter
        (fun r => r.field_id == f && r.zone_id == z)).map (fun r => r.round_no)
      = (l.filter (fun r => r.field_id == f && r.zone_id == z)).map
          (fun r => r.round_no) := by
  unfold closeRound
  rw [List.filter_map, List.map_map]
  have hcongr : List.filter
      ((fun r : ZoneInspection => r.field_id == f && r.zone_id == z) ∘
        fun r : ZoneInspection =>
          if r.inspection_id == iid && r.status == STATUS_OPEN
          then { r with status := STATUS_DONE } else r) l
      = List.filter (fun r : ZoneInspection =>
          r.field_id == f && r.zone_id == z) l := by
    refine List.filter_congr ?_
    intro a _
    by_cases hc : (a.inspection_id == iid && a.status == STATUS_OPEN) = true
    · rw [Function.comp_apply, if_pos hc]
    · rw [Function.comp_apply, if_neg hc]
  rw [hcongr]
  refine List.map_congr_left ?_
  intro a _
  by_cases hc : (a.inspection_id == iid && a.status == STATUS_OPEN) = true
  · rw [Function.comp_apply, if_pos hc]
  · rw [Function.comp_apply, if_neg hc]

theorem maxRound_closeRound (l : List ZoneInspection) (iid f z : Nat) :
    maxRound (closeRound l iid) f z = maxRound l f z := by
  unfold maxRound
  rw [closeRound_pair_map]

theorem openRounds_eq_nil_of_pair_nil {l : List ZoneInspection} {f z : Nat}
    (hp : l.filter (fun r => r.field_id == f && r.zone_id == z) = []) :
    openRounds l f z = [] := by
  unfold openRounds
  rw [List.filter_eq_nil_iff] at hp ⊢
  intro a ha hcon
  simp only [Bool.and_eq_true] at hcon
  exact hp a ha (by simp only [Bool.and_eq_true]; exact hcon.1)

theorem atMostOneOpen_close {l : List ZoneInspection} (h : AtMostOneOpen l)
    (iid : Nat) : AtMostOneOpen (closeRound l iid) := by
  intro f z
  rw [openRounds_closeRound]
  exact le_trans (List.length_filter_le _ _) (h f z)

theorem atMostOneOpen_append_open {l : List ZoneInspection}
    (h : AtMostOneOpen l) (r : ZoneInspection)
    (hr : openRounds l r.field_id r.zone_id = []) :
    AtMostOneOpen (l ++ [r]) := by
  intro f' z'
  rw [openRounds_append]
  by_cases hm : (r.field_id == f' && r.zone_id == z' && r.status == STATUS_OPEN) = true
  · rw [if_pos hm]
    have hm2 := hm
    simp only [Bool.and_eq_true, beq_iff_eq] at hm2
    obtain ⟨⟨h1, h2⟩, _⟩ := hm2
    subst h1
    subst h2
    simp [hr]
  · rw [if_neg hm]
    simpa using h f' z'

theorem atMostOneOpen_singleton (r : ZoneInspection) : AtMostOneOpen [r] := by
  intro f z
  exact le_trans (List.length_filter_le _ _) (by simp)

/-- C1: starting from a state in which every (field, zone) pair has at
most one open round, every execution of start_round (forceNewRound true
or false, including the field-not-found, forbidden and store-error
branches) leaves a state that still has at most one open round per
(field, zone) pair. -/
theorem start_round_at_most_one_open
    (fields : List FieldRow) (st : RoundState) (uid f z : Nat)
    (notes : Option String) (nr fc fi : Bool)
    (h : AtMostOneOpen st.rounds) :
    AtMostOneOpen (start_round fields st uid f z notes nr fc fi).2.rounds := by
  unfold start_round
  split
  · exact h
  split
  · exact h
  next owner hfind =>
    split
    · exact h
    split
    next e he =>
      split
      · exact h
      split
      · exact h
      split
      · exact atMostOneOpen_close h e.inspection_id
      · refine atMostOneOpen_append_open (atMostOneOpen_close h e.inspection_id) _ ?_
        have hmem : e ∈ openRounds st.rounds f z := argmaxKey_mem _ he
        have hsing : openRounds st.rounds f z = [e] :=
          eq_singleton_of_length_le_one (h f z) hmem
        show openRounds (closeRound st.rounds e.inspection_id) f z = []
        rw [openRounds_closeRound, hsing]
        simp
    next he =>
      split
      · exact h
      · refine atMostOneOpen_append_open h _ ?_
        have hnil : openRounds st.rounds f z = [] := argmaxKey_eq_none _ he
        show openRounds st.rounds f z = []
        exact hnil

/-- Witness for C1 at a concrete state with one open round. -/
theorem start_round_at_most_one_open_witness :
    AtMostOneOpen ((start_round [⟨1, 7⟩] ⟨[⟨10, 1, 2, 1, "pending", none⟩], 11⟩
        7 1 2 none true false false).2.rounds) :=
  start_round_at_most_one_open [⟨1, 7⟩] ⟨[⟨10, 1, 2, 1, "pending", none⟩], 11⟩
    7 1 2 none true false false (atMostOneOpen_singleton _)

/-- C2: when an open round exists for the pair, start with
forceNewRound false returns its inspection id and round number flagged
idempotent and leaves the state unchanged; and on a fresh field+zone two
consecutive such calls return the same inspection id and round number
the second time, flagged idempotent, without changing state again. -/
theorem start_round_idempotent_no_force
    (fields : List FieldRow) (st : RoundState) (uid f z : Nat)
    (notes n2 : Option String) (ow : FieldRow)
    (hf : (f == 0) = false) (hz : (z == 0) = false)
    (hfind : fields.find? (fun fl => fl.field_id == f) = some ow)
    (hown : ow.user_id = uid) :
    (∀ e, latestOpen st.rounds f z = some e →
       start_round fields st uid f z notes false false false
         = (.ok true e.inspection_id e.round_no, st))
    ∧ (st.rounds.filter (fun r => r.field_id == f && r.zone_id == z) = [] →
        (start_round fields st uid f z notes false false false).1
            = .ok false st.nextId 1
        ∧ start_round fields
            (start_round fields st uid f z notes false false false).2
            uid f z n2 false false false
          = (.ok true st.nextId 1,
             (start_round fields st uid f z notes false false false).2)) := by
  subst hown
  constructor
  · intro e he
    simp [start_round, hf, hz, hfind, he]
  · intro hfresh
    have hopen : openRounds st.rounds f z = [] := openRounds_eq_nil_of_pair_nil hfresh
    have hlatest : latestOpen st.rounds f z = none := by
      unfold latestOpen
      rw [hopen]
      rfl
    have hmax : maxRound st.rounds f z = 0 := by
      unfold maxRound
      rw [hfresh]
      rfl
    have hstep1 : start_round fields st ow.user_id f z notes false false false
        = (.ok false st.nextId 1,
           ⟨st.rounds ++ [⟨st.nextId, f, z, 1, STATUS_OPEN, notes⟩],
            st.nextId + 1⟩) := by
      simp [start_round, hf, hz, hfind, hlatest, hmax]
    rw [hstep1]
    refine ⟨rfl, ?_⟩
    have hopen2 : openRounds (st.rounds ++ [⟨st.nextId, f, z, 1, STATUS_OPEN, notes⟩]) f z
        = [⟨st.nextId, f, z, 1, STATUS_OPEN, notes⟩] := by
      rw [openRounds_append, hopen]
      simp
    have hlatest2 : latestOpen (st.rounds ++ [⟨st.nextId, f, z, 1, STATUS_OPEN, notes⟩]) f z
        = some ⟨st.nextId, f, z, 1, STATUS_OPEN, notes⟩ := by
      unfold latestOpen
      rw [hopen2]
      rfl
    simp [start_round, hf, hz, hfind, hlatest2]

/-- Witness for C2 on a fresh field+zone. -/
theorem start_round_idempotent_no_force_witness :
    (start_round [⟨1, 7⟩] ⟨[], 10⟩ 7 1 2 none false false false).1
        = .ok false 10 1
    ∧ start_round [⟨1, 7⟩]
        (start_round [⟨1, 7⟩] ⟨[], 10⟩ 7 1 2 none false false false).2
        7 1 2 none false false false
      = (.ok true 10 1,
         (start_round [⟨1, 7⟩] ⟨[], 10⟩ 7 1 2 none false false false).2) :=
  (start_round_idempotent_no_force [⟨1, 7⟩] ⟨[], 10⟩ 7 1 2 none none ⟨1, 7⟩
    (by decide) (by decide) (by decide) rfl).2 (by decide)

/-- C3: with forceNewRound true, if an open round e exists it is closed
and a new open round is created with round number max of existing round
numbers plus one (hence e.round_no + 1 when e holds the maximum); when
no open round exists the new round likewise gets max + 1 and status
open. -/
theorem start_round_force_new
    (fields : List FieldRow) (st : RoundState) (uid f z : Nat)
    (notes : Option String) (ow : FieldRow)
    (hf : (f == 0) = false) (hz : (z == 0) = false)
    (hfind : fields.find? (fun fl => fl.field_id == f) = some ow)
    (hown : ow.user_id = uid)
    (hNodup : (st.rounds.map (fun r => r.inspection_id)).Nodup)
    (hFresh : ∀ r ∈ st.rounds, r.inspection_id < st.nextId) :
    (∀ e, latestOpen st.rounds f z = some e →
       (start_round fields st uid f z notes true false false).1
           = .ok false st.nextId (maxRound st.rounds f z + 1)
       ∧ (e.round_no = maxRound st.rounds f z →
           (start_round fields st uid f z notes true false false).1
             = .ok false st.nextId (e.round_no + 1))
       ∧ (∀ r ∈ (start_round fields st uid f z notes true false false).2.rounds,
            r.inspection_id = e.inspection_id → r.status = STATUS_DONE)
       ∧ (⟨st.nextId, f, z, maxRound st.rounds f z + 1, STATUS_OPEN, notes⟩ : ZoneInspection)
           ∈ (start_round fields st uid f z notes true false false).2.rounds)
    ∧ (latestOpen st.rounds f z = none →
       (start_round fields st uid f z notes true false false).1
           = .ok false st.nextId (maxRound st.rounds f z + 1)
       ∧ (⟨st.nextId, f, z, maxRound st.rounds f z + 1, STATUS_OPEN, notes⟩ : ZoneInspection)
           ∈ (start_round fields st uid f z notes true false false).2.rounds) := by
  subst hown
  constructor
  · intro e he
    have hred : start_round fields st ow.user_id f z notes true false false
        = (.ok false st.nextId (maxRound st.rounds f z + 1),
           ⟨closeRound st.rounds e.inspection_id ++
              [⟨st.nextId, f, z, maxRound st.rounds f z + 1, STATUS_OPEN, notes⟩],
            st.nextId + 1⟩) := by
      simp [start_round, hf, hz, hfind, he, maxRound_closeRound]
    have hemem : e ∈ openRounds st.rounds f z := argmaxKey_mem _ he
    unfold openRounds at hemem
    rw [List.mem_filter] at hemem
    have heOpen : e.status = STATUS_OPEN := by
      have h2 := hemem.2
      simp only [Bool.and_eq_true, beq_iff_eq] at h2
      exact h2.2
    refine ⟨by rw [hred], ?_, ?_, ?_⟩
    · intro hmx
      rw [hred, hmx]
    · intro r hr hid
      rw [hred] at hr
      simp only [List.mem_append, List.mem_singleton] at hr
      rcases hr with hr | hr
      · unfold closeRound at hr
        rw [List.mem_map] at hr
        obtain ⟨r0, hr0mem, hr0eq⟩ := hr
        by_cases hc : (r0.inspection_id == e.inspection_id && r0.status == STATUS_OPEN) = true
        · rw [if_pos hc] at hr0eq
          rw [← hr0eq]
        · rw [if_neg hc] at hr0eq
          subst hr0eq
          have hr0e : r0 = e :=
            List.inj_on_of_nodup_map hNodup hr0mem hemem.1 hid
          subst hr0e
          exact absurd (by simp [hid, heOpen]) hc
      · subst hr
        exfalso
        have hlt : e.inspection_id < st.nextId := hFresh e hemem.1
        rw [← hid] at hlt
        exact lt_irrefl _ hlt
    · rw [hred]
      simp
  · intro he
    have hred : start_round fields st ow.user_id f z notes true false false
        = (.ok false st.nextId (maxRound st.rounds f z + 1),
           ⟨st.rounds ++
              [⟨st.nextId, f, z, maxRound st.rounds f z + 1, STATUS_OPEN, notes⟩],
            st.nextId + 1⟩) := by
      simp [start_round, hf, hz, hfind, he]
    refine ⟨by rw [hred], ?_⟩
    rw [hred]
    simp

/-- Witness for C3 at a concrete state with one open round of maximal
round number. -/
theorem start_round_force_new_witness :
    (start_round [⟨1, 7⟩] ⟨[⟨10, 1, 2, 1, "pending", none⟩], 11⟩
        7 1 2 none true false false).1 = .ok false 11 2
    ∧ (∀ r ∈ (start_round [⟨1, 7⟩] ⟨[⟨10, 1, 2, 1, "pending", none⟩], 11⟩
          7 1 2 none true false false).2.rounds,
        r.inspection_id = 10 → r.status = STATUS_DONE) := by
  have h := (start_round_force_new [⟨1, 7⟩] ⟨[⟨10, 1, 2, 1, "pending", none⟩], 11⟩
      7 1 2 none ⟨1, 7⟩ (by decide) (by decide) (by decide) rfl
      (by decide) (by decide)).1
      ⟨10, 1, 2, 1, "pending", none⟩ (by decide)
  exact ⟨h.2.1 (by decide), h.2.2.1⟩

/-- An uploaded file as seen by upload_images: its client file name and
its size in bytes (the source measures it by seeking to the end). -/
structure UFile where
  filename : String
  size : Nat
deriving DecidableEq

/-- A row of zone_inspection_image.  The stored path is derived from a
timestamp in the source; the claims only depend on the count and order
of rows, so the row keeps the original file name (which the source also
stores, inside the meta JSON). -/
structure ImageRec where
  inspection_id : Nat
  original_name : String
deriving DecidableEq

/-- Characters strictly after the last dot, or none when no dot occurs
(the Python test: a dot occurs in the name, then rsplit takes the part
after the last one). -/
def extChars (cs : List Char) : Option (List Char) :=
  cs.foldl (fun acc c =>
    if c = '.' then some [] else acc.map (fun l => l ++ [c])) none

/-- ASCII lowercasing of a string, character by character (the model of
the Python str.lower calls on the ASCII data this code handles). -/
def lowerStr (s : String) : String :=
  String.mk (s.data.map Char.toLower)

/-- The model of Python str.strip: drop whitespace from both ends. -/
def trimStr (s : String) : String :=
  String.mk
    (((s.data.dropWhile Char.isWhitespace).reverse.dropWhile
        Char.isWhitespace).reverse)

/-- Source helper ext_ok: the file name contains a dot and the part
after the last dot, lowercased, is in the allow-list. -/
def ext_ok (filename : String) : Bool :=
  match extChars filename.data with
  | none => false
  | some cs => ALLOWED_EXTS.contains (String.mk (cs.map Char.toLower))

inductive UploadOutcome
  | noFiles
  | notFound
  | forbidden
  | closedRound
  | quotaFull (exist maxImages : Nat)
  | unsupportedMedia
  | payloadTooLarge
  | ok (savedCount skipped quota_remain : Nat)
deriving DecidableEq

/-- Result of upload_images.  images is the committed table after the
call (the connection has autocommit off, so aborting before the final
commit rolls every INSERT of the call back).  executedInserts counts the
files that were fully processed (written to blob storage and INSERTed,
committed or not) before the call returned. -/
structure UploadResult where
  outcome : UploadOutcome
  images : List ImageRec
  executedInserts : Nat
deriving DecidableEq

/-- The per-file loop of upload_images: validate extension, then size,
then save the file and execute the INSERT.  Returns the number of files
processed, or the first validation error together with the number of
files fully processed before it. -/
def scanFiles : List UFile → Except (UploadOutcome × Nat) Nat
  | [] => .ok 0
  | f :: fs =>
    if f.filename == "" || !(ext_ok f.filename) then .error (.unsupportedMedia, 0)
    else if MAX_FILE_BYTES < f.size then .error (.payloadTooLarge, 0)
    else
      match scanFiles fs with
      | .ok n => .ok (n + 1)
      | .error (e, n) => .error (e, n + 1)

/-- A file that passes both validation checks of the upload loop. -/
def validFile (f : UFile) : Bool :=
  (!(f.filename == "" || !(ext_ok f.filename))) && (f.size ≤ MAX_FILE_BYTES)

/-- Shallow embedding of upload_images (routes/inspection.py). -/
def upload_images (fields : List FieldRow) (rounds : List ZoneInspection)
    (images : List ImageRec) (uid inspection_id : Nat) (files : List UFile) :
    UploadResult :=
  if files.isEmpty then ⟨.noFiles, images, 0⟩
  else
    match rounds.find? (fun r => r.inspection_id == inspection_id) with
    | none => ⟨.notFound, images, 0⟩
    | some zi =>
      match fields.find? (fun fl => fl.field_id == zi.field_id) with
      | none => ⟨.notFound, images, 0⟩
      | some ow =>
        if ow.user_id != uid then ⟨.forbidden, images, 0⟩
        else if zi.status != STATUS_OPEN then ⟨.closedRound, images, 0⟩
        else
          let already := (images.filter
            (fun im => im.inspection_id == inspection_id)).length
          let remain := MAX_IMAGES_PER_ROUND - already
          if remain == 0 then
            ⟨.quotaFull already MAX_IMAGES_PER_ROUND, images, 0⟩
          else
            let will_save := files.take remain
            let skipped := files.length - will_save.length
            match scanFiles will_save with
            | .error (e, n) => ⟨e, images, n⟩
            | .ok n =>
              ⟨.ok n skipped (MAX_IMAGES_PER_ROUND - (already + n)),
               images ++ will_save.map
                 (fun fl => ⟨inspection_id, fl.filename⟩),
               n⟩

example : ext_ok "photo.JPG" = true := by decide

example : ext_ok "photo.txt" = false := by decide

theorem scanFiles_all_valid :
    ∀ {fs : List UFile}, (∀ f ∈ fs, validFile f = true) →
      scanFiles fs = .ok fs.length := by
  intro fs
  induction fs with
  | nil => intro _; rfl
  | cons a t ih =>
    intro h
    have ha := h a (List.mem_cons_self a t)
    simp only [validFile, Bool.and_eq_true, Bool.not_eq_true',
      decide_eq_true_eq] at ha
    have ht := ih (fun f hf => h f (List.mem_cons_of_mem a hf))
    simp [scanFiles, ha.1, Nat.not_lt.mpr ha.2, ht]

theorem scanFiles_ok_length :
    ∀ {fs : List UFile} {n : Nat}, scanFiles fs = .ok n → n = fs.length := by
  intro fs
  induction fs with
  | nil =>
    intro n h
    injection h with h
    simp [h.symm]
  | cons a t ih =>
    intro n h
    simp only [scanFiles] at h
    by_cases h1 : (a.filename == "" || !(ext_ok a.filename)) = true
    · rw [if_pos h1] at h
      exact absurd h (by simp)
    · rw [if_neg h1] at h
      by_cases h2 : MAX_FILE_BYTES < a.size
      · rw [if_pos h2] at h
        exact absurd h (by simp)
      · rw [if_neg h2] at h
        cases hs : scanFiles t with
        | ok m =>
          rw [hs] at h
          injection h with h3
          subst h3
          simp [ih hs]
        | error e =>
          obtain ⟨e1, n1⟩ := e
          rw [hs] at h
          exact absurd h (by simp)

/-- C4: with the round open and owned, a full quota yields QuotaFull
reporting count and maximum and stores nothing; otherwise exactly the
first remaining files of the batch are stored in submission order and
the excess is reported through the skipped count; uploading 3 then 4
valid files to an empty round ends with exactly 5 stored rows and
skipped = 2 on the second call. -/
theorem upload_images_quota
    (fields : List FieldRow) (rounds : List ZoneInspection)
    (images : List ImageRec) (uid iid : Nat) (files : List UFile)
    (zi : ZoneInspection) (ow : FieldRow)
    (hfiles : files ≠ [])
    (hround : rounds.find? (fun r => r.inspection_id == iid) = some zi)
    (hfield : fields.find? (fun fl => fl.field_id == zi.field_id) = some ow)
    (hown : ow.user_id = uid)
    (hopen : zi.status = STATUS_OPEN) :
    (MAX_IMAGES_PER_ROUND ≤ (images.filter (fun im => im.inspection_id == iid)).length →
      upload_images fields rounds images uid iid files
        = ⟨.quotaFull (images.filter (fun im => im.inspection_id == iid)).length
            MAX_IMAGES_PER_ROUND, images, 0⟩)
    ∧ ((images.filter (fun im => im.inspection_id == iid)).length < MAX_IMAGES_PER_ROUND →
       (∀ f ∈ files.take (MAX_IMAGES_PER_ROUND -
            (images.filter (fun im => im.inspection_id == iid)).length),
          validFile f = true) →
       upload_images fields rounds images uid iid files
         = ⟨.ok (files.take (MAX_IMAGES_PER_ROUND -
                  (images.filter (fun im => im.inspection_id == iid)).length)).length
               (files.length - (files.take (MAX_IMAGES_PER_ROUND -
                  (images.filter (fun im => im.inspection_id == iid)).length)).length)
               (MAX_IMAGES_PER_ROUND -
                  ((images.filter (fun im => im.inspection_id == iid)).length
                   + (files.take (MAX_IMAGES_PER_ROUND -
                        (images.filter (fun im => im.inspection_id == iid)).length)).length)),
            images ++ (files.take (MAX_IMAGES_PER_ROUND -
                (images.filter (fun im => im.inspection_id == iid)).length)).map
              (fun fl => ⟨iid, fl.filename⟩),
            (files.take (MAX_IMAGES_PER_ROUND -
                (images.filter (fun im => im.inspection_id == iid)).length)).length⟩)
    ∧ ((upload_images [⟨1, 7⟩] [⟨10, 1, 2, 1, "pending", none⟩]
          (upload_images [⟨1, 7⟩] [⟨10, 1, 2, 1, "pending", none⟩] [] 7 10
            [⟨"a.jpg", 9⟩, ⟨"b.jpg", 9⟩, ⟨"c.jpg", 9⟩]).images 7 10
          [⟨"d.jpg", 9⟩, ⟨"e.jpg", 9⟩, ⟨"f.jpg", 9⟩, ⟨"g.jpg", 9⟩]).images.length = 5
       ∧ (upload_images [⟨1, 7⟩] [⟨10, 1, 2, 1, "pending", none⟩]
          (upload_images [⟨1, 7⟩] [⟨10, 1, 2, 1, "pending", none⟩] [] 7 10
            [⟨"a.jpg", 9⟩, ⟨"b.jpg", 9⟩, ⟨"c.jpg", 9⟩]).images 7 10
          [⟨"d.jpg", 9⟩, ⟨"e.jpg", 9⟩, ⟨"f.jpg", 9⟩, ⟨"g.jpg", 9⟩]).outcome
            = .ok 2 2 0) := by
  subst hown
  have hfe : files.isEmpty = false := by
    cases files with
    | nil => exact absurd rfl hfiles
    | cons a t => rfl
  refine ⟨?_, ?_, by decide⟩
  · intro hful
    have hrem : (MAX_IMAGES_PER_ROUND -
        (images.filter (fun im => im.inspection_id == iid)).length == 0) = true := by
      simp [Nat.sub_eq_zero_of_le hful]
    simp [upload_images, hfe, hround, hfield, hopen, hrem]
  · intro hlt hvalid
    have hrem : (MAX_IMAGES_PER_ROUND -
        (images.filter (fun im => im.inspection_id == iid)).length == 0) = false := by
      simp only [beq_eq_false_iff_ne, ne_eq, Nat.sub_eq_zero_iff_le, not_le]
      exact hlt
    have hscan := scanFiles_all_valid hvalid
    simp [upload_images, hfe, hround, hfield, hopen, hrem, hscan]

/-- Witness for C4 on a concrete non-full round. -/
theorem upload_images_quota_witness :
    upload_images [⟨1, 7⟩] [⟨10, 1, 2, 1, "pending", none⟩] [] 7 10 [⟨"a.jpg", 9⟩]
      = ⟨.ok 1 0 4, [⟨10, "a.jpg"⟩], 1⟩ := by
  have h := (upload_images_quota [⟨1, 7⟩] [⟨10, 1, 2, 1, "pending", none⟩] [] 7 10
      [⟨"a.jpg", 9⟩] ⟨10, 1, 2, 1, "pending", none⟩ ⟨1, 7⟩
      (by decide) (by decide) (by decide) rfl rfl).2.1 (by decide) (by decide)
  exact h

/-- Counterexample to C5 as stated: with the batch [a.jpg, b.txt] the
unsupported-media error of the second file is detected only after the
INSERT for the first file has been executed, so the validation error is
not detected before every mutating store call. -/
theorem upload_images_validation_counterexample :
    (upload_images [⟨1, 7⟩] [⟨10, 1, 2, 1, "pending", none⟩] [] 7 10
        [⟨"a.jpg", 9⟩, ⟨"b.txt", 9⟩]).outcome = .unsupportedMedia
    ∧ ¬((upload_images [⟨1, 7⟩] [⟨10, 1, 2, 1, "pending", none⟩] [] 7 10
        [⟨"a.jpg", 9⟩, ⟨"b.txt", 9⟩]).executedInserts = 0) := by decide

theorem scanFiles_error_kind :
    ∀ {fs : List UFile} {e : UploadOutcome} {n : Nat},
      scanFiles fs = .error (e, n) →
      e = .unsupportedMedia ∨ e = .payloadTooLarge := by
  intro fs
  induction fs with
  | nil => intro e n h; exact absurd h (by simp [scanFiles])
  | cons a t ih =>
    intro e n h
    simp only [scanFiles] at h
    by_cases h1 : (a.filename == "" || !(ext_ok a.filename)) = true
    · rw [if_pos h1] at h
      injection h with h2
      exact Or.inl (congrArg Prod.fst h2).symm
    · rw [if_neg h1] at h
      by_cases h2 : MAX_FILE_BYTES < a.size
      · rw [if_pos h2] at h
        injection h with h3
        exact Or.inr (congrArg Prod.fst h3).symm
      · rw [if_neg h2] at h
        cases hs : scanFiles t with
        | ok m =>
          rw [hs] at h
          exact absurd h (by simp)
        | error pr =>
          obtain ⟨e1, n1⟩ := pr
          rw [hs] at h
          injection h with h3
          have he : e1 = e := congrArg Prod.fst h3
          exact he ▸ ih hs

/-- C5 amended: a validation failure anywhere in the batch aborts the
transaction, so no image row of the call is committed — the committed
table is unchanged on an UnsupportedMedia or PayloadTooLarge outcome,
and on success all accepted files are recorded, in submission order. -/
theorem upload_images_no_partial_commit
    (fields : List FieldRow) (rounds : List ZoneInspection)
    (images : List ImageRec) (uid iid : Nat) (files : List UFile) :
    ((upload_images fields rounds images uid iid files).outcome = .unsupportedMedia
      ∨ (upload_images fields rounds images uid iid files).outcome = .payloadTooLarge →
     (upload_images fields rounds images uid iid files).images = images)
    ∧ (∀ s k q, (upload_images fields rounds images uid iid files).outcome = .ok s k q →
        ∃ n, (upload_images fields rounds images uid iid files).images
            = images ++ (files.take n).map (fun fl => ⟨iid, fl.filename⟩)
          ∧ s = (files.take n).length) := by
  unfold upload_images
  split
  · exact ⟨fun h => rfl, fun s k q h => by simp at h⟩
  split
  · exact ⟨fun h => rfl, fun s k q h => by simp at h⟩
  split
  · exact ⟨fun h => rfl, fun s k q h => by simp at h⟩
  split
  · exact ⟨fun h => rfl, fun s k q h => by simp at h⟩
  split
  · exact ⟨fun h => rfl, fun s k q h => by simp at h⟩
  dsimp only
  split
  · exact ⟨fun h => rfl, fun s k q h => by simp at h⟩
  split
  next e n hscan =>
    refine ⟨fun h => rfl, fun s k q h => ?_⟩
    simp only at h
    rcases scanFiles_error_kind hscan with he | he <;> rw [he] at h <;>
      exact absurd h (by simp)
  next n hscan =>
    refine ⟨fun h => by simp at h, fun s k q h => ?_⟩
    refine ⟨MAX_IMAGES_PER_ROUND -
      (images.filter (fun im => im.inspection_id == iid)).length, rfl, ?_⟩
    simp only [UploadOutcome.ok.injEq] at h
    have hn : scanFiles (files.take (MAX_IMAGES_PER_ROUND -
        (images.filter (fun im => im.inspection_id == iid)).length)) = .ok n := hscan
    have hlen : n = (files.take (MAX_IMAGES_PER_ROUND -
        (images.filter (fun im => im.inspection_id == iid)).length)).length := by
      have := scanFiles_ok_length hn
      exact this
    rw [← h.1, hlen]

/-- Witness for C5 (amended) at a concrete aborted batch. -/
theorem upload_images_no_partial_commit_witness :
    (upload_images [⟨1, 7⟩] [⟨10, 1, 2, 1, "pending", none⟩] [] 7 10
        [⟨"a.jpg", 9⟩, ⟨"b.txt", 9⟩]).images = [] :=
  (upload_images_no_partial_commit [⟨1, 7⟩] [⟨10, 1, 2, 1, "pending", none⟩] [] 7 10
      [⟨"a.jpg", 9⟩, ⟨"b.txt", 9⟩]).1 (Or.inl (by decide))

/-- Source constant NORMAL_TOKENS: labels treated as healthy, producing
no finding. -/
def NORMAL_TOKENS : List String := ["normal", "nomal", "healthy", "none"]

/-- Source constant CODE_ALIASES: lowercased label to canonical code. -/
def CODE_ALIASES : List (String × String) :=
  [("n", "N"), ("nitrogen", "N"), ("p", "P"), ("phosphorus", "P"),
   ("k", "K"), ("potassium", "K"), ("mg", "Mg"), ("magnesium", "Mg")]

/-- Source constant CLASS_ALIASES of run_analyze: model class name to
short code. -/
def CLASS_ALIASES : List (String × String) :=
  [("Magnesium", "Mg"), ("Nitrogen", "N"), ("Phosphorus", "P"),
   ("Potassium", "K")]

/-- Source helper to_nutrient_code: empty label gives none, normal
tokens give none, aliases are applied, and the result must be in the
whitelist of valid codes loaded from the store. -/
def to_nutrient_code (label : String) (valid_codes : List String) :
    Option String :=
  if label == "" then none
  else
    let s := trimStr label
    if NORMAL_TOKENS.contains (lowerStr s) then none
    else
      let s1 := (CODE_ALIASES.lookup (lowerStr s)).getD s
      let s2 := trimStr s1
      if valid_codes.contains s2 then some s2 else none

/-- Source helper severity_from_conf of run_analyze. -/
def severity_from_conf (conf_pct : ℚ) : String :=
  if conf_pct ≥ 85 then "severe"
  else if conf_pct ≥ 65 then "moderate"
  else "mild"

/-- One (class, confidence) prediction from the classifier; confidence
may be absent, which the source coalesces to 0. -/
structure Pred where
  cls : String
  confidence : Option ℚ
deriving DecidableEq

/-- Classifier output for one image. -/
structure ImgResult where
  preds : List Pred
deriving DecidableEq

/-- One entry of the agg dict of run_analyze. -/
structure AggEntry where
  max_conf : ℚ
  max_sev : String
deriving DecidableEq

/-- The loop state of run_analyze: the agg dict (insertion-ordered, as
a Python dict), the skipped_normal counter and the unknown_labels
list. -/
structure AggState where
  agg : List (String × AggEntry)
  skipped_normal : Nat
  unknown_labels : List String
deriving DecidableEq

/-- In-place value replacement for an existing key of the agg dict
(Python dict assignment keeps the key position). -/
def updateAssoc : List (String × AggEntry) → String → AggEntry →
    List (String × AggEntry)
  | [], _, _ => []
  | (k2, v2) :: rest, k, v =>
    if k2 == k then (k2, v) :: rest else (k2, v2) :: updateAssoc rest k v

/-- The code a prediction resolves to: strip the class name, apply
CLASS_ALIASES, then to_nutrient_code. -/
def resolvedCode (valid_codes : List String) (p : Pred) : Option String :=
  to_nutrient_code
    ((CLASS_ALIASES.lookup (trimStr p.cls)).getD (trimStr p.cls)) valid_codes

/-- conf_pct of run_analyze: confidence coalesced to 0, times 100. -/
def confPct (p : Pred) : ℚ := (p.confidence.getD 0) * 100

/-- The body of the aggregation loop of run_analyze for one
prediction. -/
def processPred (valid_codes : List String) (st : AggState) (p : Pred) :
    AggState :=
  match resolvedCode valid_codes p with
  | none =>
    if NORMAL_TOKENS.contains (lowerStr (trimStr p.cls)) then
      { st with skipped_normal := st.skipped_normal + 1 }
    else
      { st with unknown_labels := st.unknown_labels ++ [trimStr p.cls] }
  | some code =>
    let conf_pct := confPct p
    let sev := severity_from_conf conf_pct
    match st.agg.lookup code with
    | none => { st with agg := st.agg ++ [(code, ⟨conf_pct, sev⟩)] }
    | some entry =>
      if entry.max_conf < conf_pct then
        { st with agg := updateAssoc st.agg code ⟨conf_pct, sev⟩ }
      else st

/-- The aggregation loop of run_analyze over all predictions of all
images. -/
def aggregate (valid_codes : List String) (results : List ImgResult) :
    AggState :=
  results.foldl (fun st it => it.preds.foldl (processPred valid_codes) st)
    ⟨[], 0, []⟩

/-- The same loop over a flat prediction list (helper for proofs). -/
def foldPreds (valid_codes : List String) (ps : List Pred) : AggState :=
  ps.foldl (processPred valid_codes) ⟨[], 0, []⟩

/-- All predictions of a result list, in traversal order. -/
def allPreds (results : List ImgResult) : List Pred :=
  (results.map (fun it => it.preds)).flatten

/-- A prediction that run_analyze counts in skipped_normal: it resolves
to no code and its stripped label, lowercased, is a normal token. -/
def isNormalSkip (valid_codes : List String) (p : Pred) : Bool :=
  (resolvedCode valid_codes p).isNone
    && NORMAL_TOKENS.contains (lowerStr (trimStr p.cls))

/-- A prediction that run_analyze collects in unknown_labels. -/
def isUnknown (valid_codes : List String) (p : Pred) : Bool :=
  (resolvedCode valid_codes p).isNone
    && !(NORMAL_TOKENS.contains (lowerStr (trimStr p.cls)))

/-- The confidence percentages of the predictions resolving to a given
code, in traversal order. -/
def contribs (valid_codes : List String) (code : String) (ps : List Pred) :
    List ℚ :=
  (ps.filter (fun p => resolvedCode valid_codes p == some code)).map confPct

/-- Maximum of a nonempty list given as head and tail, folding from the
head (the running maximum of the aggregation loop). -/
def maxFrom (a : ℚ) (l : List ℚ) : ℚ := l.foldl max a

example :
    aggregate ["N", "P", "K", "Mg"]
      [⟨[⟨"Potassium", some (92/100)⟩, ⟨"nomal", some (6/10)⟩]⟩]
      = ⟨[("K", ⟨92, "severe"⟩)], 1, []⟩ := by with_unfolding_all decide

example :
    aggregate ["N", "P", "K", "Mg"]
      [⟨[⟨"K", some (1/2)⟩, ⟨"Potassium", some (7/10)⟩, ⟨"weird", none⟩]⟩]
      = ⟨[("K", ⟨70, "moderate"⟩)], 0, ["weird"]⟩ := by with_unfolding_all decide

theorem lookup_append_single (l : List (String × AggEntry)) (k k2 : String)
    (v : AggEntry) :
    (l ++ [(k, v)]).lookup k2
      = match l.lookup k2 with
        | some w => some w
        | none => if k2 == k then some v else none := by
  induction l with
  | nil =>
    cases hk : k2 == k <;> simp [List.lookup_cons, hk, List.lookup]
  | cons a t ih =>
    obtain ⟨ka, va⟩ := a
    cases hk : k2 == ka <;>
      simp [List.lookup_cons, hk, ih]

theorem lookup_updateAssoc_ne (l : List (String × AggEntry)) (k k2 : String)
    (v : AggEntry) (hne : k2 ≠ k) :
    (updateAssoc l k v).lookup k2 = l.lookup k2 := by
  induction l with
  | nil => rfl
  | cons a t ih =>
    obtain ⟨ka, va⟩ := a
    by_cases hka : ka = k
    · subst hka
      simp [updateAssoc, List.lookup_cons, beq_eq_false_iff_ne.mpr hne]
    · cases hk2 : k2 == ka <;>
        simp [updateAssoc, beq_eq_false_iff_ne.mpr hka, List.lookup_cons,
          hk2, ih]

theorem lookup_updateAssoc_self (l : List (String × AggEntry)) (k : String)
    (v w : AggEntry) (h : l.lookup k = some w) :
    (updateAssoc l k v).lookup k = some v := by
  induction l with
  | nil => exact absurd h (by simp [List.lookup])
  | cons a t ih =>
    obtain ⟨ka, va⟩ := a
    by_cases hka : ka = k
    · subst hka
      simp [updateAssoc, List.lookup_cons]
    · have hk2 : (k == ka) = false := beq_eq_false_iff_ne.mpr (Ne.symm hka)
      rw [List.lookup_cons, hk2] at h
      simp only [updateAssoc, beq_eq_false_iff_ne.mpr hka, Bool.false_eq_true,
        if_false, List.lookup_cons, hk2]
      exact ih h

theorem keys_updateAssoc (l : List (String × AggEntry)) (k : String)
    (v : AggEntry) :
    (updateAssoc l k v).map Prod.fst = l.map Prod.fst := by
  induction l with
  | nil => rfl
  | cons a t ih =>
    obtain ⟨ka, va⟩ := a
    by_cases hka : (ka == k) = true <;> simp [updateAssoc, hka, ih]

theorem lookup_eq_none_not_mem (l : List (String × AggEntry)) (k : String)
    (h : l.lookup k = none) : k ∉ l.map Prod.fst := by
  induction l with
  | nil => simp
  | cons a t ih =>
    obtain ⟨ka, va⟩ := a
    cases hk : k == ka with
    | true =>
      rw [List.lookup_cons, hk] at h
      exact absurd h (by simp)
    | false =>
      rw [List.lookup_cons, hk] at h
      have hne : k ≠ ka := by simpa using hk
      simp only [List.map_cons, List.mem_cons]
      rintro (hc | hc)
      · exact hne hc
      · exact ih h hc

theorem lookup_of_mem_nodup (l : List (String × AggEntry)) (k : String)
    (v : AggEntry) (hnd : (l.map Prod.fst).Nodup) (hmem : (k, v) ∈ l) :
    l.lookup k = some v := by
  induction l with
  | nil => simp at hmem
  | cons a t ih =>
    obtain ⟨ka, va⟩ := a
    rcases List.mem_cons.mp hmem with hc | hc
    · injection hc with h1 h2
      subst h1
      subst h2
      simp [List.lookup_cons]
    · have hne : k ≠ ka := by
        intro hkk
        subst hkk
        have : k ∈ t.map Prod.fst :=
          List.mem_map.mpr ⟨(k, v), hc, rfl⟩
        exact (List.nodup_cons.mp (by simpa using hnd)).1 this
      rw [List.lookup_cons, beq_eq_false_iff_ne.mpr hne]
      exact ih (List.nodup_cons.mp (by simpa using hnd)).2 hc

theorem lookup_some_mem (l : List (String × AggEntry)) (k : String)
    (v : AggEntry) (h : l.lookup k = some v) : (k, v) ∈ l := by
  induction l with
  | nil => exact absurd h (by simp [List.lookup])
  | cons a t ih =>
    obtain ⟨ka, va⟩ := a
    cases hk : k == ka with
    | true =>
      rw [List.lookup_cons, hk] at h
      injection h with h1
      have hkk : k = ka := by simpa using hk
      subst hkk
      subst h1
      exact List.mem_cons_self _ _
    | false =>
      rw [List.lookup_cons, hk] at h
      exact List.mem_cons_of_mem _ (ih h)

theorem contribs_append (valid : List String) (code : String) (ps : List Pred)
    (p : Pred) :
    contribs valid code (ps ++ [p])
      = contribs valid code ps ++
          (if (resolvedCode valid p == some code) = true
           then [confPct p] else []) := by
  by_cases h : (resolvedCode valid p == some code) = true <;>
    simp [contribs, List.filter_append, h]

theorem maxFrom_append (a b : ℚ) (l : List ℚ) :
    maxFrom a (l ++ [b]) = max (maxFrom a l) b := by
  simp [maxFrom, List.foldl_append]

theorem foldPreds_append (valid : List String) (ps : List Pred) (p : Pred) :
    foldPreds valid (ps ++ [p]) = processPred valid (foldPreds valid ps) p := by
  simp [foldPreds, List.foldl_append]

theorem aggregate_eq_foldPreds (valid : List String)
    (results : List ImgResult) :
    aggregate valid results = foldPreds valid (allPreds results) := by
  suffices h : ∀ init : AggState,
      results.foldl (fun st it => it.preds.foldl (processPred valid) st) init
        = (allPreds results).foldl (processPred valid) init by
    exact h _
  induction results with
  | nil => intro init; rfl
  | cons it rest ih =>
    intro init
    simp only [List.foldl_cons, allPreds, List.map_cons, List.flatten_cons,
      List.foldl_append]
    exact ih _

theorem foldPreds_spec (valid : List String) (ps : List Pred) :
    (foldPreds valid ps).skipped_normal = ps.countP (isNormalSkip valid)
    ∧ (foldPreds valid ps).unknown_labels
        = (ps.filter (isUnknown valid)).map (fun p => trimStr p.cls)
    ∧ ((foldPreds valid ps).agg.map Prod.fst).Nodup
    ∧ ∀ code : String,
        (contribs valid code ps = [] →
          (foldPreds valid ps).agg.lookup code = none)
        ∧ ∀ c cs, contribs valid code ps = c :: cs →
            (foldPreds valid ps).agg.lookup code
              = some ⟨maxFrom c cs, severity_from_conf (maxFrom c cs)⟩ := by
  induction ps using List.reverseRecOn with
  | nil =>
    refine ⟨rfl, rfl, by simp [foldPreds], ?_⟩
    intro code
    exact ⟨fun _ => rfl, fun c cs hc => absurd hc (by simp [contribs])⟩
  | append_singleton ps p ih =>
    obtain ⟨ihS, ihU, ihN, ihA⟩ := ih
    rw [foldPreds_append]
    cases hres : resolvedCode valid p with
    | none =>
      have hcontr : ∀ code, contribs valid code (ps ++ [p])
          = contribs valid code ps := by
        intro code
        rw [contribs_append]
        simp [hres]
      by_cases hn : lowerStr (trimStr p.cls) ∈ NORMAL_TOKENS
      · have hskip : isNormalSkip valid p = true := by
          simp [isNormalSkip, hres, hn]
        have hue : isUnknown valid p = false := by
          simp [isUnknown, hres, hn]
        have hA : (processPred valid (foldPreds valid ps) p).agg
            = (foldPreds valid ps).agg := by
          simp [processPred, hres, hn]
        have hS : (processPred valid (foldPreds valid ps) p).skipped_normal
            = (foldPreds valid ps).skipped_normal + 1 := by
          simp [processPred, hres, hn]
        have hU : (processPred valid (foldPreds valid ps) p).unknown_labels
            = (foldPreds valid ps).unknown_labels := by
          simp [processPred, hres, hn]
        refine ⟨?_, ?_, ?_, ?_⟩
        · rw [hS, ihS]
          simp [List.countP_append, List.countP_cons, hskip]
        · rw [hU, ihU]
          simp [List.filter_append, hue]
        · rw [hA]
          exact ihN
        · intro code
          refine ⟨fun h0 => ?_, fun c cs h0 => ?_⟩
          · rw [hcontr code] at h0
            rw [hA]
            exact (ihA code).1 h0
          · rw [hcontr code] at h0
            rw [hA]
            exact (ihA code).2 c cs h0
      · have hskip : isNormalSkip valid p = false := by
          simp [isNormalSkip, hres, hn]
        have hue : isUnknown valid p = true := by
          simp [isUnknown, hres, hn]
        have hA : (processPred valid (foldPreds valid ps) p).agg
            = (foldPreds valid ps).agg := by
          simp [processPred, hres, hn]
        have hS : (processPred valid (foldPreds valid ps) p).skipped_normal
            = (foldPreds valid ps).skipped_normal := by
          simp [processPred, hres, hn]
        have hU : (processPred valid (foldPreds valid ps) p).unknown_labels
            = (foldPreds valid ps).unknown_labels ++ [trimStr p.cls] := by
          simp [processPred, hres, hn]
        refine ⟨?_, ?_, ?_, ?_⟩
        · rw [hS, ihS]
          simp [List.countP_append, List.countP_cons, hskip]
        · rw [hU, ihU]
          simp [List.filter_append, hue]
        · rw [hA]
          exact ihN
        · intro code
          refine ⟨fun h0 => ?_, fun c cs h0 => ?_⟩
          · rw [hcontr code] at h0
            rw [hA]
            exact (ihA code).1 h0
          · rw [hcontr code] at h0
            rw [hA]
            exact (ihA code).2 c cs h0
    | some code0 =>
      have hskip : isNormalSkip valid p = false := by simp [isNormalSkip, hres]
      have hue : isUnknown valid p = false := by simp [isUnknown, hres]
      have hcontrNe : ∀ code, code ≠ code0 →
          contribs valid code (ps ++ [p]) = contribs valid code ps := by
        intro code hne
        rw [contribs_append]
        have hb : (resolvedCode valid p == some code) = false := by
          rw [hres]
          exact beq_eq_false_iff_ne.mpr (by simpa using Ne.symm hne)
        simp [hb]
      have hcontrEq : contribs valid code0 (ps ++ [p])
          = contribs valid code0 ps ++ [confPct p] := by
        rw [contribs_append]
        simp [hres]
      cases hlk : (foldPreds valid ps).agg.lookup code0 with
      | none =>
        have hnil : contribs valid code0 ps = [] := by
          cases hcc : contribs valid code0 ps with
          | nil => rfl
          | cons c cs =>
            have h2 := (ihA code0).2 c cs hcc
            rw [h2] at hlk
            exact absurd hlk (by simp)
        have hA : (processPred valid (foldPreds valid ps) p).agg
            = (foldPreds valid ps).agg ++
                [(code0, ⟨confPct p, severity_from_conf (confPct p)⟩)] := by
          simp [processPred, hres, hlk]
        have hS : (processPred valid (foldPreds valid ps) p).skipped_normal
            = (foldPreds valid ps).skipped_normal := by
          simp [processPred, hres, hlk]
        have hU : (processPred valid (foldPreds valid ps) p).unknown_labels
            = (foldPreds valid ps).unknown_labels := by
          simp [processPred, hres, hlk]
        refine ⟨?_, ?_, ?_, ?_⟩
        · rw [hS, ihS]
          simp [List.countP_append, List.countP_cons, hskip]
        · rw [hU, ihU]
          simp [List.filter_append, hue]
        · rw [hA]
          simp only [List.map_append, List.map_cons, List.map_nil]
          refine List.Nodup.append ihN (by simp) ?_
          intro x hx hx2
          simp only [List.mem_singleton] at hx2
          subst hx2
          exact lookup_eq_none_not_mem _ _ hlk hx
        · intro code
          by_cases hcode : code = code0
          · subst hcode
            have hc : contribs valid code (ps ++ [p]) = [confPct p] := by
              rw [hcontrEq, hnil]
              rfl
            refine ⟨fun h0 => ?_, fun c cs h0 => ?_⟩
            · rw [hc] at h0
              exact absurd h0 (by simp)
            · rw [hc] at h0
              injection h0 with h1 h2
              subst h1
              subst h2
              rw [hA, lookup_append_single, hlk]
              simp [maxFrom]
          · refine ⟨fun h0 => ?_, fun c cs h0 => ?_⟩
            · rw [hcontrNe code hcode] at h0
              rw [hA, lookup_append_single, (ihA code).1 h0]
              simp [beq_eq_false_iff_ne.mpr hcode]
            · rw [hcontrNe code hcode] at h0
              rw [hA, lookup_append_single, (ihA code).2 c cs h0]
      | some entry =>
        obtain ⟨c1, cs1, hcc⟩ : ∃ c1 cs1, contribs valid code0 ps = c1 :: cs1 := by
          cases hcc : contribs valid code0 ps with
          | nil =>
            have h1 := (ihA code0).1 hcc
            rw [h1] at hlk
            exact absurd hlk (by simp)
          | cons c cs => exact ⟨c, cs, rfl⟩
        have hentry : entry
            = ⟨maxFrom c1 cs1, severity_from_conf (maxFrom c1 cs1)⟩ := by
          have h2 := (ihA code0).2 c1 cs1 hcc
          rw [h2] at hlk
          injection hlk with h3
          exact h3.symm
        by_cases hgt : entry.max_conf < confPct p
        · have hA : (processPred valid (foldPreds valid ps) p).agg
              = updateAssoc (foldPreds valid ps).agg code0
                  ⟨confPct p, severity_from_conf (confPct p)⟩ := by
            simp [processPred, hres, hlk, hgt]
          have hS : (processPred valid (foldPreds valid ps) p).skipped_normal
              = (foldPreds valid ps).skipped_normal := by
            simp [processPred, hres, hlk, hgt]
          have hU : (processPred valid (foldPreds valid ps) p).unknown_labels
              = (foldPreds valid ps).unknown_labels := by
            simp [processPred, hres, hlk, hgt]
          refine ⟨?_, ?_, ?_, ?_⟩
          · rw [hS, ihS]
            simp [List.countP_append, List.countP_cons, hskip]
          · rw [hU, ihU]
            simp [List.filter_append, hue]
          · rw [hA, keys_updateAssoc]
            exact ihN
          · intro code
            by_cases hcode : code = code0
            · subst hcode
              refine ⟨fun h0 => ?_, fun c cs h0 => ?_⟩
              · rw [hcontrEq, hcc] at h0
                exact absurd h0 (by simp)
              · rw [hcontrEq, hcc] at h0
                injection h0 with h1 h2
                have h1x : c1 = c := h1
                have h2x : cs = cs1 ++ [confPct p] := h2.symm
                subst h1x
                subst h2x
                have hmax : maxFrom c1 (cs1 ++ [confPct p]) = confPct p := by
                  rw [maxFrom_append]
                  refine max_eq_right ?_
                  have hec : entry.max_conf = maxFrom c1 cs1 := by rw [hentry]
                  rw [← hec]
                  exact le_of_lt hgt
                rw [hA, hmax]
                exact lookup_updateAssoc_self _ _ _ entry hlk
            · refine ⟨fun h0 => ?_, fun c cs h0 => ?_⟩
              · rw [hcontrNe code hcode] at h0
                rw [hA, lookup_updateAssoc_ne _ _ _ _ hcode]
                exact (ihA code).1 h0
              · rw [hcontrNe code hcode] at h0
                rw [hA, lookup_updateAssoc_ne _ _ _ _ hcode]
                exact (ihA code).2 c cs h0
        · have hA : (processPred valid (foldPreds valid ps) p).agg
              = (foldPreds valid ps).agg := by
            simp [processPred, hres, hlk, hgt]
          have hS : (processPred valid (foldPreds valid ps) p).skipped_normal
              = (foldPreds valid ps).skipped_normal := by
            simp [processPred, hres, hlk, hgt]
          have hU : (processPred valid (foldPreds valid ps) p).unknown_labels
              = (foldPreds valid ps).unknown_labels := by
            simp [processPred, hres, hlk, hgt]
          refine ⟨?_, ?_, ?_, ?_⟩
          · rw [hS, ihS]
            simp [List.countP_append, List.countP_cons, hskip]
          · rw [hU, ihU]
            simp [List.filter_append, hue]
          · rw [hA]
            exact ihN
          · intro code
            by_cases hcode : code = code0
            · subst hcode
              refine ⟨fun h0 => ?_, fun c cs h0 => ?_⟩
              · rw [hcontrEq, hcc] at h0
                exact absurd h0 (by simp)
              · rw [hcontrEq, hcc] at h0
                injection h0 with h1 h2
                have h1x : c1 = c := h1
                have h2x : cs = cs1 ++ [confPct p] := h2.symm
                subst h1x
                subst h2x
                have hmax : maxFrom c1 (cs1 ++ [confPct p]) = maxFrom c1 cs1 := by
                  rw [maxFrom_append]
                  refine max_eq_left ?_
                  have hec : entry.max_conf = maxFrom c1 cs1 := by rw [hentry]
                  rw [← hec]
                  exact le_of_not_lt hgt
                rw [hA, hmax, hlk, hentry]
            · refine ⟨fun h0 => ?_, fun c cs h0 => ?_⟩
              · rw [hcontrNe code hcode] at h0
                rw [hA]
                exact (ihA code).1 h0
              · rw [hcontrNe code hcode] at h0
                rw [hA]
                exact (ihA code).2 c cs h0

/-- C6: the aggregation of run_analyze counts normal-token predictions
in skipped_normal, collects unresolved labels in unknown_labels with no
finding, and per nutrient code retains exactly the maximum
confidence-percent observation (confidence times 100) with its severity
tier (at least 85 severe, at least 65 moderate, else mild, ties keeping
the first observed); the example with Potassium at 0.92 and nomal at
0.6 yields the single entry K, severe, 92 and skipped_normal 1. -/
theorem aggregate_spec (valid : List String) (results : List ImgResult) :
    ((aggregate valid results).skipped_normal
        = (allPreds results).countP (isNormalSkip valid))
    ∧ ((aggregate valid results).unknown_labels
        = ((allPreds results).filter (isUnknown valid)).map
            (fun p => trimStr p.cls))
    ∧ (∀ code c cs, contribs valid code (allPreds results) = c :: cs →
        (aggregate valid results).agg.lookup code
          = some ⟨maxFrom c cs, severity_from_conf (maxFrom c cs)⟩)
    ∧ (∀ code, contribs valid code (allPreds results) = [] →
        (aggregate valid results).agg.lookup code = none)
    ∧ (∀ q : ℚ, 85 ≤ q → severity_from_conf q = "severe")
    ∧ (∀ q : ℚ, 65 ≤ q → q < 85 → severity_from_conf q = "moderate")
    ∧ (∀ q : ℚ, q < 65 → severity_from_conf q = "mild")
    ∧ aggregate ["N", "P", "K", "Mg"]
        [⟨[⟨"Potassium", some (92/100)⟩, ⟨"nomal", some (6/10)⟩]⟩]
        = ⟨[("K", ⟨92, "severe"⟩)], 1, []⟩ := by
  obtain ⟨hS, hU, _hN, hA⟩ := foldPreds_spec valid (allPreds results)
  rw [aggregate_eq_foldPreds]
  refine ⟨hS, hU, ?_, ?_, ?_, ?_, ?_, ?_⟩
  · intro code c cs h0
    exact (hA code).2 c cs h0
  · intro code h0
    exact (hA code).1 h0
  · intro q hq
    simp [severity_from_conf, hq]
  · intro q h1 h2
    simp [severity_from_conf, not_le.mpr h2, h1]
  · intro q h1
    have h2 : q < 85 := lt_trans h1 (by norm_num)
    simp [severity_from_conf, not_le.mpr h1, not_le.mpr h2]
  · with_unfolding_all decide

/-- Witness for C6 on the concrete classifier output of the claim. -/
theorem aggregate_spec_witness :
    (aggregate ["N", "P", "K", "Mg"]
        [⟨[⟨"Potassium", some (92/100)⟩, ⟨"nomal", some (6/10)⟩]⟩]).agg.lookup "K"
      = some ⟨92, "severe"⟩
    ∧ severity_from_conf 92 = "severe" := by
  have h := aggregate_spec ["N", "P", "K", "Mg"]
      [⟨[⟨"Potassium", some (92/100)⟩, ⟨"nomal", some (6/10)⟩]⟩]
  constructor
  · have h3 := h.2.2.1 "K" 92 [] (by with_unfolding_all decide)
    simpa [maxFrom] using h3
  · exact h.2.2.2.2.1 92 (by norm_num)

/-- A row of zone_inspection_recommendation (created_at is not modelled;
no claim mentions it). -/
structure Recommendation where
  recommendation_id : Nat
  inspection_id : Nat
  fertilizer_id : Option Nat
  nutrient_code : String
  recommendation_text : String
  rate_per_area : Option String
  application_method : Option String
  status : Option String
  applied_date : Option String
deriving DecidableEq

/-- A row of the fertilizer table as read by upsert_recommendations. -/
structure Fert where
  fertilizer_id : Nat
  fert_name : Option String
  formulation : Option String
  description : Option String
deriving DecidableEq

/-- Python substring test for prefixes: needle is a leading run of
hay. -/
def leadsWith : List Char → List Char → Bool
  | [], _ => true
  | _ :: _, [] => false
  | n :: ns, h :: hs => n == h && leadsWith ns hs

/-- Python substring membership (the in operator on str). -/
def hasSubChars : List Char → List Char → Bool
  | [], needle => needle.isEmpty
  | c :: t, needle => leadsWith needle (c :: t) || hasSubChars t needle

/-- needle occurs somewhere in hay (Python: needle in hay). -/
def containsSub (hay needle : String) : Bool :=
  hasSubChars hay.data needle.data

/-- Source helper norm of upsert_recommendations:
(s or '').strip().lower(). -/
def normStr (s : Option String) : String := lowerStr (trimStr (s.getD ""))

/-- The per-fertilizer rule table of match_fertilizer_id, transcribed
from the source including the Thai name fragments. -/
def fertMatches (code : String) (r : Fert) : Bool :=
  let r_form := normStr r.formulation
  let r_name := normStr r.fert_name
  if code == "N" then
    r_form == "46-0-0" || containsSub r_name "urea"
      || containsSub r_name "ยูเรีย"
  else if code == "P" then
    r_form == "18-46-0" || containsSub r_name "dap"
      || containsSub r_name "ฟอสเฟต" || containsSub r_name "ฟอสฟอรัส"
  else if code == "K" then
    r_form == "0-0-60" || containsSub r_name "mop"
      || containsSub r_name "โพแทสเซียมคลอไรด์"
  else if code == "Mg" then
    containsSub r_name "โดโลไม" || containsSub r_name "dolomite"
      || containsSub r_name "แมกนีเซียม" || containsSub r_name "magnesium"
      || containsSub r_name "kieserite" || containsSub r_name "คีเซอร์"
  else false

/-- Source helper match_fertilizer_id: the first fertilizer row whose
rule matches the (trimmed) code, scanning in table order. -/
def match_fertilizer_id (code : String) (ferts : List Fert) : Option Nat :=
  let c := trimStr code
  if c == "" then none
  else (ferts.find? (fertMatches c)).map (fun r => r.fertilizer_id)

/-- Source constant FALLBACK_TEXT. -/
def FALLBACK_TEXT : List (String × String) :=
  [("K", "เสริมโพแทสเซียมและควบคุมความชื้น/ความเค็มของดิน"),
   ("Mg", "ให้แมกนีเซียมพ่นทางใบหรือใส่ทางดิน"),
   ("N", "เสริมไนโตรเจน เพิ่มอินทรียวัตถุและจัดการน้ำให้สม่ำเสมอ"),
   ("P", "เสริมฟอสฟอรัส ช่วยระบบรากและการแตกยอด")]

/-- Source constant RATE. -/
def RATE_TABLE : List (String × String) :=
  [("K", "10–20 กก./ไร่"), ("Mg", "10–25 กก./ไร่"),
   ("N", "5–10 กก./ไร่"), ("P", "5–10 กก./ไร่")]

/-- Source constant METHOD. -/
def METHOD_TABLE : List (String × String) :=
  [("K", "หว่านรอบโคน/คลุกดิน"), ("Mg", "หว่าน + รดน้ำ/พ่นใบ"),
   ("N", "แบ่งใส่หลายครั้ง"), ("P", "คลุกดิน/รองก้นหลุม")]

/-- The zone_inspection_recommendation table plus its AUTO_INCREMENT
counter. -/
structure RecState where
  recs : List Recommendation
  nextRecId : Nat
deriving DecidableEq

/-- The SELECT of upsert_recommendations that looks for an existing row
keyed by (inspection_id, nutrient_code): ORDER BY recommendation_id
DESC LIMIT 1. -/
def latestRecFor (recs : List Recommendation) (iid : Nat) (code : String) :
    Option Recommendation :=
  argmaxKey (fun r => r.recommendation_id)
    (recs.filter (fun r => r.inspection_id == iid && r.nutrient_code == code))

/-- The recommendation text chosen by upsert_recommendations: the
matched fertilizer's non-empty stripped description when a fertilizer
matched, else the fallback text for the code (empty when the code has
no fallback entry). -/
def recTextFor (ferts : List Fert) (code : String) : String :=
  let rec_text0 := (FALLBACK_TEXT.lookup code).getD ""
  match match_fertilizer_id code ferts with
  | none => rec_text0
  | some fid =>
    match ferts.find? (fun r => r.fertilizer_id == fid) with
    | none => rec_text0
    | some row =>
      let desc := trimStr (row.description.getD "")
      if desc == "" then rec_text0 else desc

/-- The body of the per-code loop of upsert_recommendations: resolve
fertilizer and texts, then UPDATE the existing row (status coalesced to
suggested, applied_date untouched) or INSERT a new one. -/
def upsert_code (ferts : List Fert) (iid : Nat) (st : RecState)
    (code : String) : RecState :=
  let fert_id := match_fertilizer_id code ferts
  let rate := RATE_TABLE.lookup code
  let method := METHOD_TABLE.lookup code
  let rec_text := recTextFor ferts code
  match latestRecFor st.recs iid code with
  | some ex =>
    { st with recs := st.recs.map (fun r =>
        if r.recommendation_id == ex.recommendation_id then
          { r with
              fertilizer_id := fert_id,
              recommendation_text := rec_text,
              rate_per_area := rate,
              application_method := method,
              status := some (r.status.getD "suggested") }
        else r) }
  | none =>
    { recs := st.recs ++
        [⟨st.nextRecId, iid, fert_id, code, rec_text, rate, method,
          some "suggested", none⟩],
      nextRecId := st.nextRecId + 1 }

/-- Source function upsert_recommendations: iterate upsert_code over the
codes of the aggregated map, in order. -/
def upsert_recommendations (ferts : List Fert) (iid : Nat) (st : RecState)
    (agg : List (String × AggEntry)) : RecState :=
  agg.foldl (fun s kv => upsert_code ferts iid s kv.1) st

/-- A row of zone_inspection_finding (notes is always NULL in the
source insert). -/
structure Finding where
  inspection_id : Nat
  nutrient_code : String
  severity : String
  confidence : ℚ
  notes : Option String
deriving DecidableEq

/-- Python round(x, 2) as used on confidences (round half to even
differs from round half up only at exact midpoints, which none of the
claims exercise). -/
def round2 (q : ℚ) : ℚ := ((round (q * 100) : ℤ) : ℚ) / 100

inductive AnalyzeOutcome
  | notFound
  | forbidden
  | noImages
  | ok (findings : List Finding) (skipped_normal : Nat)
      (unknown_labels : List String)
deriving DecidableEq

/-- The mutable state touched by run_analyze. -/
structure AnalyzeState where
  findings : List Finding
  recs : List Recommendation
  nextRecId : Nat
deriving DecidableEq

/-- The finding row run_analyze inserts for one agg entry: severity is
the stored tier of the maximum observation, confidence is that maximum
rounded to 2 decimals. -/
def mkFinding (iid : Nat) (kv : String × AggEntry) : Finding :=
  ⟨iid, kv.1, kv.2.max_sev, round2 kv.2.max_conf, none⟩

/-- Shallow embedding of run_analyze (routes/inspection.py).  The
classifier output for the round's images is the results parameter (the
source calls predict_on_paths, an external collaborator).  The DELETE
of the old findings and the INSERT of the new ones commit together. -/
def run_analyze (fields : List FieldRow) (rounds : List ZoneInspection)
    (images : List ImageRec) (valid_codes : List String) (ferts : List Fert)
    (st : AnalyzeState) (uid inspection_id : Nat)
    (results : List ImgResult) : AnalyzeOutcome × AnalyzeState :=
  match rounds.find? (fun r => r.inspection_id == inspection_id) with
  | none => (.notFound, st)
  | some zi =>
    match fields.find? (fun fl => fl.field_id == zi.field_id) with
    | none => (.notFound, st)
    | some ow =>
      if ow.user_id != uid then (.forbidden, st)
      else
        if (images.filter
              (fun im => im.inspection_id == inspection_id)).isEmpty then
          (.noImages, st)
        else
          let a := aggregate valid_codes results
          let kept := st.findings.filter
            (fun fd => !(fd.inspection_id == inspection_id))
          if a.agg.isEmpty then
            (.ok [] a.skipped_normal a.unknown_labels,
             { st with findings := kept })
          else
            let newFindings := a.agg.map (mkFinding inspection_id)
            let rst := upsert_recommendations ferts inspection_id
              ⟨st.recs, st.nextRecId⟩ a.agg
            (.ok newFindings a.skipped_normal a.unknown_labels,
             ⟨kept ++ newFindings, rst.recs, rst.nextRecId⟩)

/-- With the ownership and image checks passing, run_analyze reduces to
a single closed form, uniform in whether the aggregated map is empty
(an empty map just yields zero findings). -/
theorem run_analyze_reduce (fields : List FieldRow)
    (rounds : List ZoneInspection) (images : List ImageRec)
    (valid : List String) (ferts : List Fert) (uid iid : Nat)
    (results : List ImgResult) (zi : ZoneInspection) (ow : FieldRow)
    (hround : rounds.find? (fun r => r.inspection_id == iid) = some zi)
    (hfield : fields.find? (fun fl => fl.field_id == zi.field_id) = some ow)
    (hown : ow.user_id = uid)
    (himgs : (images.filter (fun im => im.inspection_id == iid)).isEmpty
        = false) :
    ∀ st : AnalyzeState,
      run_analyze fields rounds images valid ferts st uid iid results
        = (.ok ((aggregate valid results).agg.map (mkFinding iid))
              (aggregate valid results).skipped_normal
              (aggregate valid results).unknown_labels,
           ⟨st.findings.filter (fun fd => !(fd.inspection_id == iid))
              ++ (aggregate valid results).agg.map (mkFinding iid),
            (if (aggregate valid results).agg.isEmpty
             then (⟨st.recs, st.nextRecId⟩ : RecState)
             else upsert_recommendations ferts iid ⟨st.recs, st.nextRecId⟩
                    (aggregate valid results).agg).recs,
            (if (aggregate valid results).agg.isEmpty
             then (⟨st.recs, st.nextRecId⟩ : RecState)
             else upsert_recommendations ferts iid ⟨st.recs, st.nextRecId⟩
                    (aggregate valid results).agg).nextRecId⟩) := by
  intro st
  subst hown
  by_cases hagg : (aggregate valid results).agg.isEmpty = true
  · have hnil : (aggregate valid results).agg = [] := by
      simpa [List.isEmpty_iff] using hagg
    simp [run_analyze, hround, hfield, himgs, hagg, hnil]
  · have hagg2 : (aggregate valid results).agg.isEmpty = false := by
      simpa using hagg
    simp [run_analyze, hround, hfield, himgs, hagg2]

/-- C7: analyze fully replaces the round's findings with the retained
one-per-code set (keeping other rounds' findings), an empty retained
set is a successful outcome with zero findings, and re-running with
identical classifier output reproduces the same findings and the same
outcome. -/
theorem run_analyze_replace_idempotent (fields : List FieldRow)
    (rounds : List ZoneInspection) (images : List ImageRec)
    (valid : List String) (ferts : List Fert) (uid iid : Nat)
    (results : List ImgResult) (zi : ZoneInspection) (ow : FieldRow)
    (hround : rounds.find? (fun r => r.inspection_id == iid) = some zi)
    (hfield : fields.find? (fun fl => fl.field_id == zi.field_id) = some ow)
    (hown : ow.user_id = uid)
    (himgs : (images.filter (fun im => im.inspection_id == iid)).isEmpty
        = false)
    (st : AnalyzeState) :
    (∀ fs sn ul,
       (run_analyze fields rounds images valid ferts st uid iid results).1
           = .ok fs sn ul →
       (run_analyze fields rounds images valid ferts st uid iid results).2.findings
         = st.findings.filter (fun fd => !(fd.inspection_id == iid)) ++ fs)
    ∧ ((aggregate valid results).agg = [] →
       (run_analyze fields rounds images valid ferts st uid iid results).1
         = .ok [] (aggregate valid results).skipped_normal
             (aggregate valid results).unknown_labels)
    ∧ (run_analyze fields rounds images valid ferts
         (run_analyze fields rounds images valid ferts st uid iid results).2
         uid iid results).2.findings
        = (run_analyze fields rounds images valid ferts st uid iid
            results).2.findings
    ∧ (run_analyze fields rounds images valid ferts
         (run_analyze fields rounds images valid ferts st uid iid results).2
         uid iid results).1
        = (run_analyze fields rounds images valid ferts st uid iid
            results).1 := by
  have hred := run_analyze_reduce fields rounds images valid ferts uid iid
    results zi ow hround hfield hown himgs
  have hkeep : (st.findings.filter
        (fun fd => !(fd.inspection_id == iid))).filter
        (fun fd => !(fd.inspection_id == iid))
      = st.findings.filter (fun fd => !(fd.inspection_id == iid)) := by
    rw [List.filter_filter]
    exact List.filter_congr (fun a _ => by
      cases h : a.inspection_id == iid <;> simp [h])
  have hmapnil : (((aggregate valid results).agg.map
        (mkFinding iid)).filter (fun fd => !(fd.inspection_id == iid))) = [] := by
    rw [List.filter_eq_nil_iff]
    intro a ha
    rw [List.mem_map] at ha
    obtain ⟨kv, _, hkv⟩ := ha
    subst hkv
    simp [mkFinding]
  refine ⟨?_, ?_, ?_, ?_⟩
  · intro fs sn ul h
    rw [hred st] at h
    injection h with h1 h2 h3
    subst h1
    rw [hred st]
  · intro hnil
    rw [hred st]
    simp [hnil]
  · rw [hred (run_analyze fields rounds images valid ferts st uid iid
      results).2, hred st]
    simp only [List.filter_append, hkeep, hmapnil, List.append_nil]
  · rw [hred (run_analyze fields rounds images valid ferts st uid iid
      results).2, hred st]

/-- Witness for C7 on a concrete round and classifier output. -/
theorem run_analyze_replace_idempotent_witness :
    (run_analyze [⟨1, 7⟩] [⟨10, 1, 2, 1, "pending", none⟩] [⟨10, "a.jpg"⟩]
        ["N", "P", "K", "Mg"] []
        (run_analyze [⟨1, 7⟩] [⟨10, 1, 2, 1, "pending", none⟩] [⟨10, "a.jpg"⟩]
          ["N", "P", "K", "Mg"] [] ⟨[], [], 1⟩ 7 10
          [⟨[⟨"Potassium", some (92/100)⟩]⟩]).2 7 10
        [⟨[⟨"Potassium", some (92/100)⟩]⟩]).2.findings
      = (run_analyze [⟨1, 7⟩] [⟨10, 1, 2, 1, "pending", none⟩] [⟨10, "a.jpg"⟩]
          ["N", "P", "K", "Mg"] [] ⟨[], [], 1⟩ 7 10
          [⟨[⟨"Potassium", some (92/100)⟩]⟩]).2.findings :=
  (run_analyze_replace_idempotent [⟨1, 7⟩] [⟨10, 1, 2, 1, "pending", none⟩]
      [⟨10, "a.jpg"⟩] ["N", "P", "K", "Mg"] [] 7 10
      [⟨[⟨"Potassium", some (92/100)⟩]⟩] ⟨10, 1, 2, 1, "pending", none⟩
      ⟨1, 7⟩ (by decide) (by decide) rfl (by decide) ⟨[], [], 1⟩).2.2.1

theorem round_le_round {a b : ℚ} (h : a ≤ b) : round a ≤ round b := by
  rw [round_eq, round_eq]
  exact Int.floor_mono (by linarith)

theorem round2_bounds (q : ℚ) (h0 : 0 ≤ q) (h1 : q ≤ 100) :
    0 ≤ round2 q ∧ round2 q ≤ 100 := by
  have hlo : (0 : ℤ) ≤ round (q * 100) := by
    have h := round_le_round (by linarith : (0 : ℚ) ≤ q * 100)
    simpa using h
  have hhi : round (q * 100) ≤ 10000 := by
    have h := round_le_round (by linarith : q * 100 ≤ 10000)
    simpa using h
  constructor
  · exact div_nonneg (by exact_mod_cast hlo) (by norm_num)
  · rw [round2, div_le_iff₀ (by norm_num : (0 : ℚ) < 100)]
    have h2 : ((round (q * 100) : ℤ) : ℚ) ≤ 10000 := by exact_mod_cast hhi
    linarith

theorem maxFrom_bounds : ∀ (l : List ℚ) (a : ℚ), 0 ≤ a → a ≤ 100 →
    (∀ b ∈ l, 0 ≤ b ∧ b ≤ 100) → 0 ≤ maxFrom a l ∧ maxFrom a l ≤ 100 := by
  intro l
  induction l with
  | nil => intro a h0 h1 _; exact ⟨h0, h1⟩
  | cons b t ih =>
    intro a h0 h1 hl
    have hb := hl b (List.mem_cons_self _ _)
    have hx : maxFrom a (b :: t) = maxFrom (max a b) t := rfl
    rw [hx]
    exact ih (max a b) (le_trans h0 (le_max_left a b)) (max_le h1 hb.2)
      (fun x hx2 => hl x (List.mem_cons_of_mem _ hx2))

theorem contribs_bounds (valid : List String) (code : String)
    (ps : List Pred)
    (h : ∀ p ∈ ps, 0 ≤ p.confidence.getD 0 ∧ p.confidence.getD 0 ≤ 1) :
    ∀ b ∈ contribs valid code ps, 0 ≤ b ∧ b ≤ 100 := by
  intro b hb
  unfold contribs at hb
  rw [List.mem_map] at hb
  obtain ⟨p, hp, hbp⟩ := hb
  have hp2 := h p (List.mem_of_mem_filter hp)
  subst hbp
  unfold confPct
  refine ⟨mul_nonneg hp2.1 (by norm_num), ?_⟩
  calc p.confidence.getD 0 * 100 ≤ 1 * 100 :=
        mul_le_mul_of_nonneg_right hp2.2 (by norm_num)
    _ = 100 := by norm_num

/-- C10: each inserted finding stores its confidence rounded to two
decimals (within [0, 100] whenever every classifier confidence lies in
[0, 1]) while its severity tier is computed from the unrounded maximum
confidence percent; an unrounded 84.996 persists as confidence 85 with
severity moderate. -/
theorem run_analyze_rounding (fields : List FieldRow)
    (rounds : List ZoneInspection) (images : List ImageRec)
    (valid : List String) (ferts : List Fert) (uid iid : Nat)
    (results : List ImgResult) (zi : ZoneInspection) (ow : FieldRow)
    (hround : rounds.find? (fun r => r.inspection_id == iid) = some zi)
    (hfield : fields.find? (fun fl => fl.field_id == zi.field_id) = some ow)
    (hown : ow.user_id = uid)
    (himgs : (images.filter (fun im => im.inspection_id == iid)).isEmpty
        = false)
    (st : AnalyzeState) :
    (∀ fs sn ul,
       (run_analyze fields rounds images valid ferts st uid iid results).1
           = .ok fs sn ul →
       ∀ fd ∈ fs, ∃ c cs,
         contribs valid fd.nutrient_code (allPreds results) = c :: cs
         ∧ fd.confidence = round2 (maxFrom c cs)
         ∧ fd.severity = severity_from_conf (maxFrom c cs)
         ∧ ((∀ p ∈ allPreds results,
              0 ≤ p.confidence.getD 0 ∧ p.confidence.getD 0 ≤ 1) →
             0 ≤ fd.confidence ∧ fd.confidence ≤ 100))
    ∧ round2 (84996/1000) = 85
    ∧ severity_from_conf (84996/1000) = "moderate" := by
  have hred := run_analyze_reduce fields rounds images valid ferts uid iid
    results zi ow hround hfield hown himgs
  obtain ⟨_, _, hN, hA⟩ := foldPreds_spec valid (allPreds results)
  refine ⟨?_, ?_, ?_⟩
  · intro fs sn ul h
    rw [hred st] at h
    injection h with h1 h2 h3
    subst h1
    intro fd hfd
    rw [List.mem_map] at hfd
    obtain ⟨kv, hkvmem, hkveq⟩ := hfd
    obtain ⟨code0, entry⟩ := kv
    have hlk : (foldPreds valid (allPreds results)).agg.lookup code0
        = some entry := by
      rw [aggregate_eq_foldPreds] at hkvmem
      exact lookup_of_mem_nodup _ _ _ hN hkvmem
    obtain ⟨c, cs, hcc⟩ :
        ∃ c cs, contribs valid code0 (allPreds results) = c :: cs := by
      cases hcc : contribs valid code0 (allPreds results) with
      | nil =>
        have h4 := (hA code0).1 hcc
        rw [h4] at hlk
        exact absurd hlk (by simp)
      | cons c cs => exact ⟨c, cs, rfl⟩
    have hentry : entry
        = ⟨maxFrom c cs, severity_from_conf (maxFrom c cs)⟩ := by
      have h4 := (hA code0).2 c cs hcc
      rw [h4] at hlk
      injection hlk with h5
      exact h5.symm
    subst hkveq
    refine ⟨c, cs, hcc, ?_, ?_, ?_⟩
    · show round2 entry.max_conf = round2 (maxFrom c cs)
      rw [hentry]
    · show entry.max_sev = severity_from_conf (maxFrom c cs)
      rw [hentry]
    · intro hconf
      have hball := contribs_bounds valid code0 (allPreds results) hconf
      rw [hcc] at hball
      have hc := hball c (List.mem_cons_self _ _)
      have hmax := maxFrom_bounds cs c hc.1 hc.2
        (fun x hx => hball x (List.mem_cons_of_mem _ hx))
      show 0 ≤ round2 entry.max_conf ∧ round2 entry.max_conf ≤ 100
      rw [hentry]
      exact round2_bounds _ hmax.1 hmax.2
  · with_unfolding_all decide
  · with_unfolding_all decide

/-- Witness for C10 on a concrete round and classifier output. -/
theorem run_analyze_rounding_witness :
    round2 (84996/1000) = 85
    ∧ severity_from_conf (84996/1000) = "moderate" :=
  (run_analyze_rounding [⟨1, 7⟩] [⟨10, 1, 2, 1, "pending", none⟩]
      [⟨10, "a.jpg"⟩] ["N", "P", "K", "Mg"] [] 7 10
      [⟨[⟨"Potassium", some (92/100)⟩]⟩] ⟨10, 1, 2, 1, "pending", none⟩
      ⟨1, 7⟩ (by decide) (by decide) rfl (by decide) ⟨[], [], 1⟩).2

/-- C8: when a row keyed by (round, code) already exists, upsert_code
rewrites only its fertilizer reference, text, rate and method, sets the
status to its current value when one is set (defaulting to suggested
only when the row has none), leaves applied_date unchanged, and touches
no other row; when no row exists it inserts a fresh one with status
suggested and applied_date null. -/
theorem upsert_code_preserves_status (ferts : List Fert) (iid : Nat)
    (st : RecState) (code : String)
    (hNodup : (st.recs.map (fun r => r.recommendation_id)).Nodup) :
    (∀ ex, latestRecFor st.recs iid code = some ex →
       ∃ l1 l2, st.recs = l1 ++ ex :: l2
         ∧ (upsert_code ferts iid st code).recs
             = l1 ++ (⟨ex.recommendation_id, ex.inspection_id,
                 match_fertilizer_id code ferts, ex.nutrient_code,
                 recTextFor ferts code, RATE_TABLE.lookup code,
                 METHOD_TABLE.lookup code,
                 some (ex.status.getD "suggested"), ex.applied_date⟩ :
                 Recommendation) :: l2
         ∧ (upsert_code ferts iid st code).nextRecId = st.nextRecId)
    ∧ (latestRecFor st.recs iid code = none →
       (upsert_code ferts iid st code).recs
           = st.recs ++ [⟨st.nextRecId, iid, match_fertilizer_id code ferts,
               code, recTextFor ferts code, RATE_TABLE.lookup code,
               METHOD_TABLE.lookup code, some "suggested", none⟩]
         ∧ (upsert_code ferts iid st code).nextRecId = st.nextRecId + 1) := by
  constructor
  · intro ex hex
    have hmem : ex ∈ st.recs :=
      List.mem_of_mem_filter (argmaxKey_mem _ hex)
    obtain ⟨l1, l2, hsplit⟩ := List.append_of_mem hmem
    have hnd := hNodup
    rw [hsplit] at hnd
    simp only [List.map_append, List.map_cons] at hnd
    have hparts := List.nodup_append.mp hnd
    have hid1 : ∀ r ∈ l1, r.recommendation_id ≠ ex.recommendation_id := by
      intro r hr hcon
      have hmm : r.recommendation_id ∈ l1.map
          (fun r => r.recommendation_id) := List.mem_map.mpr ⟨r, hr, rfl⟩
      exact hparts.2.2 hmm (by rw [hcon]; exact List.mem_cons_self _ _)
    have hid2 : ∀ r ∈ l2, r.recommendation_id ≠ ex.recommendation_id := by
      intro r hr hcon
      have hmm : ex.recommendation_id ∈ l2.map
          (fun r => r.recommendation_id) := List.mem_map.mpr ⟨r, hr, hcon⟩
      exact (List.nodup_cons.mp hparts.2.1).1 hmm
    refine ⟨l1, l2, hsplit, ?_, ?_⟩
    · simp only [upsert_code, hex]
      rw [hsplit]
      simp only [List.map_append, List.map_cons]
      have hl1 : l1.map (fun r =>
          if r.recommendation_id == ex.recommendation_id then
            { r with
                fertilizer_id := match_fertilizer_id code ferts,
                recommendation_text := recTextFor ferts code,
                rate_per_area := RATE_TABLE.lookup code,
                application_method := METHOD_TABLE.lookup code,
                status := some (r.status.getD "suggested") }
          else r) = l1 := by
        refine Eq.trans (List.map_congr_left ?_) (List.map_id _)
        intro r hr
        simp [beq_eq_false_iff_ne.mpr (hid1 r hr)]
      have hl2 : l2.map (fun r =>
          if r.recommendation_id == ex.recommendation_id then
            { r with
                fertilizer_id := match_fertilizer_id code ferts,
                recommendation_text := recTextFor ferts code,
                rate_per_area := RATE_TABLE.lookup code,
                application_method := METHOD_TABLE.lookup code,
                status := some (r.status.getD "suggested") }
          else r) = l2 := by
        refine Eq.trans (List.map_congr_left ?_) (List.map_id _)
        intro r hr
        simp [beq_eq_false_iff_ne.mpr (hid2 r hr)]
      rw [hl1, hl2]
      simp
    · simp [upsert_code, hex]
  · intro hex
    constructor
    · simp [upsert_code, hex]
    · simp [upsert_code, hex]

/-- Witness for C8: an operator-set applied status and applied date
survive a re-upsert of the same code. -/
theorem upsert_code_preserves_status_witness :
    ∃ l1 l2,
      ([(⟨5, 10, none, "K", "t", none, none, some "applied",
          some "2025-09-01"⟩ : Recommendation)] : List Recommendation)
        = l1 ++ (⟨5, 10, none, "K", "t", none, none, some "applied",
            some "2025-09-01"⟩ : Recommendation) :: l2
      ∧ (upsert_code [] 10
          ⟨[⟨5, 10, none, "K", "t", none, none, some "applied",
             some "2025-09-01"⟩], 6⟩ "K").recs
        = l1 ++ (⟨5, 10, match_fertilizer_id "K" [],
            "K", recTextFor [] "K", RATE_TABLE.lookup "K",
            METHOD_TABLE.lookup "K", some "applied",
            some "2025-09-01"⟩ : Recommendation) :: l2
      ∧ (upsert_code [] 10
          ⟨[⟨5, 10, none, "K", "t", none, none, some "applied",
             some "2025-09-01"⟩], 6⟩ "K").nextRecId = 6 :=
  (upsert_code_preserves_status [] 10
      ⟨[⟨5, 10, none, "K", "t", none, none, some "applied",
         some "2025-09-01"⟩], 6⟩ "K" (by decide)).1
    ⟨5, 10, none, "K", "t", none, none, some "applied", some "2025-09-01"⟩
    (by decide)

/-- str.split('-') on the character list (Python semantics for a
one-character separator). -/
def splitOnChar (sep : Char) : List Char → List (List Char)
  | [] => [[]]
  | c :: rest =>
    match splitOnChar sep rest with
    | [] => [[c]]
    | h :: t => if c = sep then [] :: h :: t else (c :: h) :: t

def strToNat (cs : List Char) : Nat :=
  cs.foldl (fun n c => n * 10 + (c.toNat - 48)) 0

def isDigits (cs : List Char) : Bool :=
  !cs.isEmpty && cs.all (fun c => c.isDigit)

def daysInMonth (y m : Nat) : Nat :=
  if m == 2 then
    (if (y % 4 == 0 && !(y % 100 == 0)) || y % 400 == 0 then 29 else 28)
  else if m == 4 || m == 6 || m == 9 || m == 11 then 30 else 31

/-- Model of the source helper parse_yyyy_mm_dd, which calls
datetime.strptime(s, a year-month-day format): three dash-separated
all-digit fields (year up to 4 digits, month and day up to 2 digits)
forming a valid calendar date; anything else raises, returning None. -/
def parse_yyyy_mm_dd (s : String) : Option (Nat × Nat × Nat) :=
  match splitOnChar '-' s.data with
  | [ys, ms, ds] =>
    if isDigits ys && isDigits ms && isDigits ds
        && ys.length ≤ 4 && ms.length ≤ 2 && ds.length ≤ 2 then
      let y := strToNat ys
      let m := strToNat ms
      let d := strToNat ds
      if 1 ≤ y && 1 ≤ m && m ≤ 12 && 1 ≤ d && d ≤ daysInMonth y m then
        some (y, m, d)
      else none
    else none
  | _ => none

example : (parse_yyyy_mm_dd "2025-09-01").isSome = true := by decide

example : parse_yyyy_mm_dd "2025-02-29" = none := by decide

example : parse_yyyy_mm_dd "not-a-date" = none := by decide

inductive PatchOutcome
  | badStatus
  | badDateFormat
  | notFound
  | forbidden
  | ok
deriving DecidableEq

/-- Shallow embedding of patch_recommendation (routes/inspection.py).
today stands for date.today() formatted as year-month-day.  The body
normalises the status, validates it, resolves the applied date before
any store access, then checks ownership and updates the single row. -/
def patch_recommendation (fields : List FieldRow)
    (rounds : List ZoneInspection) (recs : List Recommendation)
    (uid rec_id : Nat) (status_in : Option String)
    (applied_date_in : Option String) (today : String) :
    PatchOutcome × List Recommendation :=
  let status := lowerStr (trimStr (status_in.getD ""))
  if !(status == "suggested" || status == "applied" || status == "skipped")
  then (.badStatus, recs)
  else
    match (if status == "applied" then
        match applied_date_in with
        | some s =>
          if !(s == "") then
            match parse_yyyy_mm_dd s with
            | some _ => some (some s)
            | none => none
          else some (some today)
        | none => some (some today)
      else some none : Option (Option String)) with
    | none => (.badDateFormat, recs)
    | some ad =>
      match recs.find? (fun r => r.recommendation_id == rec_id) with
      | none => (.notFound, recs)
      | some r0 =>
        match rounds.find?
            (fun z => z.inspection_id == r0.inspection_id) with
        | none => (.notFound, recs)
        | some zi =>
          match fields.find? (fun fl => fl.field_id == zi.field_id) with
          | none => (.notFound, recs)
          | some ow =>
            if ow.user_id != uid then (.forbidden, recs)
            else
              (.ok, recs.map (fun r =>
                if r.recommendation_id == rec_id then
                  { r with status := some status, applied_date := ad }
                else r))

/-- C9: a normalised status outside suggested, applied, skipped fails
BadStatus; for status applied a supplied date that does not parse as a
valid calendar date fails BadDateFormat while an omitted (or empty)
date defaults the applied date to today; for status suggested or
skipped the applied date of the updated row is forced to null whatever
was supplied. -/
theorem patch_recommendation_spec (fields : List FieldRow)
    (rounds : List ZoneInspection) (recs : List Recommendation)
    (uid rec_id : Nat) (status_in : Option String)
    (applied_date_in : Option String) (today : String) :
    (¬(lowerStr (trimStr (status_in.getD "")) = "suggested"
        ∨ lowerStr (trimStr (status_in.getD "")) = "applied"
        ∨ lowerStr (trimStr (status_in.getD "")) = "skipped") →
      patch_recommendation fields rounds recs uid rec_id status_in
          applied_date_in today
        = (.badStatus, recs))
    ∧ (lowerStr (trimStr (status_in.getD "")) = "applied" →
       ∀ s, applied_date_in = some s → s ≠ "" → parse_yyyy_mm_dd s = none →
       patch_recommendation fields rounds recs uid rec_id status_in
           applied_date_in today
         = (.badDateFormat, recs))
    ∧ (lowerStr (trimStr (status_in.getD "")) = "applied" →
       (applied_date_in = none ∨ applied_date_in = some "") →
       ∀ recs2, patch_recommendation fields rounds recs uid rec_id status_in
           applied_date_in today = (.ok, recs2) →
       ∀ r ∈ recs2, r.recommendation_id = rec_id →
         r.status = some "applied" ∧ r.applied_date = some today)
    ∧ ((lowerStr (trimStr (status_in.getD "")) = "suggested"
        ∨ lowerStr (trimStr (status_in.getD "")) = "skipped") →
       ∀ recs2, patch_recommendation fields rounds recs uid rec_id status_in
           applied_date_in today = (.ok, recs2) →
       ∀ r ∈ recs2, r.recommendation_id = rec_id →
         r.applied_date = none) := by
  refine ⟨?_, ?_, ?_, ?_⟩
  · intro h
    have h1 : (lowerStr (trimStr (status_in.getD "")) == "suggested")
        = false := beq_eq_false_iff_ne.mpr (fun hc => h (Or.inl hc))
    have h2 : (lowerStr (trimStr (status_in.getD "")) == "applied")
        = false := beq_eq_false_iff_ne.mpr (fun hc => h (Or.inr (Or.inl hc)))
    have h3 : (lowerStr (trimStr (status_in.getD "")) == "skipped")
        = false := beq_eq_false_iff_ne.mpr (fun hc => h (Or.inr (Or.inr hc)))
    simp [patch_recommendation, h1, h2, h3]
  · intro hS s hin hne hparse
    simp [patch_recommendation, hS, hin, hparse,
      beq_eq_false_iff_ne.mpr hne]
  · intro hS hdate recs2 heq r hr hid
    rcases hdate with h | h <;>
      (subst h
       unfold patch_recommendation at heq
       simp [hS] at heq
       repeat' split at heq
       all_goals
         first
         | exact PatchOutcome.noConfusion (congrArg Prod.fst heq)
         | (rw [Prod.mk.injEq] at heq
            obtain ⟨h1, h2⟩ := heq
            rw [← h2] at hr
            rw [List.mem_map] at hr
            obtain ⟨r0, hr0, hr0eq⟩ := hr
            by_cases hc : r0.recommendation_id = rec_id
            · rw [if_pos hc] at hr0eq
              rw [← hr0eq]
              exact ⟨rfl, rfl⟩
            · rw [if_neg hc] at hr0eq
              rw [← hr0eq] at hid
              exact absurd hid hc))
  · intro hS recs2 heq r hr hid
    rcases hS with h | h <;>
      (unfold patch_recommendation at heq
       simp [h] at heq
       repeat' split at heq
       all_goals
         first
         | exact PatchOutcome.noConfusion (congrArg Prod.fst heq)
         | (rw [Prod.mk.injEq] at heq
            obtain ⟨h1, h2⟩ := heq
            rw [← h2] at hr
            rw [List.mem_map] at hr
            obtain ⟨r0, hr0, hr0eq⟩ := hr
            by_cases hc : r0.recommendation_id = rec_id
            · rw [if_pos hc] at hr0eq
              rw [← hr0eq]
            · rw [if_neg hc] at hr0eq
              rw [← hr0eq] at hid
              exact absurd hid hc))

/-- Witness for C9: setting status skipped with a supplied date forces
the applied date of the patched row to null. -/
theorem patch_recommendation_spec_witness :
    (patch_recommendation [⟨1, 7⟩] [⟨10, 1, 2, 1, "pending", none⟩]
        [⟨5, 10, none, "K", "t", none, none, some "suggested", none⟩]
        7 5 (some "skipped") (some "2025-01-01") "2025-10-12").1 = .ok
    ∧ (⟨5, 10, none, "K", "t", none, none, some "skipped", none⟩ :
        Recommendation).applied_date = none := by
  have h := (patch_recommendation_spec [⟨1, 7⟩]
      [⟨10, 1, 2, 1, "pending", none⟩]
      [⟨5, 10, none, "K", "t", none, none, some "suggested", none⟩]
      7 5 (some "skipped") (some "2025-01-01") "2025-10-12").2.2.2
      (Or.inr (by decide))
      [⟨5, 10, none, "K", "t", none, none, some "skipped", none⟩]
      (by decide)
      ⟨5, 10, none, "K", "t", none, none, some "skipped", none⟩
      (by decide) rfl
  exact ⟨by decide, h⟩

end Cocoa
